import Mathlib

/-!
# Impostor party game: the session state machine of `App.jsx`

A shallow embedding of the React component `ImpostorGame`
(`src/imposter-game/src/App.jsx`).  The `useState` cells of the component
become the fields of one record `State`; every event handler becomes a
function on that record (all the `setX` calls of one handler are applied
together, as React batches them, and every handler reads the values of the
render it was created in).  `Math.random()` is an explicit argument: a
binary64 number `r`, of which the language guarantees `0 ≤ r < 1`, and the
product `Math.random() * length` is rounded as binary64 multiplication rounds
it.  A handler ends in an `Outcome`: it returned, or it threw a `TypeError`
after the `setX` calls it had made by then.

The `useEffect` timer is the pair `timerEffect` (one run of the effect body)
and `tick` (one firing of the interval the effect installs).  The effect
depends on `timerActive` and `timeLeft` only; it is not tied to `gameState`.

The handlers carry no phase test.  What ties an operation to a phase is the
render function, whose branches on `gameState` decide which controls exist;
`offered`, `dispatch` and `uiRun` embed that part of it.
-/

namespace ImpostorGame

/-! ## Game data and constants -/

/-- One entry of the word bank: the real word and the vaguer hint. -/
structure WordPair where
  secret : String
  decoy : String
deriving DecidableEq, Repr

/-- The object literal `CATEGORIES`, keys in insertion order. -/
def CATEGORIES : List (String × List WordPair) :=
  [ ("Animals",
      [ ⟨"Lion", "Wild Beast"⟩,
        ⟨"Penguin", "Cold Climate Creature"⟩,
        ⟨"Giraffe", "Herbivore"⟩,
        ⟨"Elephant", "Grey Animal"⟩,
        ⟨"Shark", "Ocean Predator"⟩,
        ⟨"Eagle", "Flying Creature"⟩,
        ⟨"Kangaroo", "Australian Native"⟩,
        ⟨"Frog", "Pond Dweller"⟩,
        ⟨"Snake", "Scaly Creature"⟩ ]),
    ("Places",
      [ ⟨"Hospital", "Emergency Location"⟩,
        ⟨"School", "Public Institution"⟩,
        ⟨"Beach", "Vacation Spot"⟩,
        ⟨"Library", "Quiet Zone"⟩,
        ⟨"Gym", "Training Area"⟩,
        ⟨"Cinema", "Ticketed Venue"⟩,
        ⟨"Museum", "Tourist Attraction"⟩,
        ⟨"Restaurant", "Social Gathering Spot"⟩ ]),
    ("Food",
      [ ⟨"Pizza", "Party Food"⟩,
        ⟨"Sushi", "Expensive Meal"⟩,
        ⟨"Ice Cream", "Sweet Treat"⟩,
        ⟨"Hamburger", "American Food"⟩,
        ⟨"Taco", "Street Food"⟩,
        ⟨"Spaghetti", "Dinner Dish"⟩,
        ⟨"Popcorn", "Crunchy Snack"⟩,
        ⟨"Donut", "Breakfast Item"⟩ ]),
    ("Objects",
      [ ⟨"Laptop", "Work Tool"⟩,
        ⟨"Guitar", "Wooden Object"⟩,
        ⟨"Sofa", "Comfortable Spot"⟩,
        ⟨"Toaster", "Heating Device"⟩,
        ⟨"Bicycle", "Transport Mode"⟩,
        ⟨"Camera", "Travel Accessory"⟩,
        ⟨"Umbrella", "Protective Gear"⟩,
        ⟨"Clock", "Wall Decoration"⟩ ]) ]

def MIN_PLAYERS : Nat := 3

def MAX_PLAYERS : Nat := 7

def ROUNDS_TOTAL : Nat := 3

def TURN_TIME_SEC : Int := 20

/-! ## JavaScript built-ins used by the handlers -/

/-- The code points that `String.prototype.trim` strips: the ECMAScript
`WhiteSpace` and `LineTerminator` productions. -/
def isJsWhiteSpace (c : Char) : Bool :=
  let n := c.toNat
  n == 0x09 || n == 0x0A || n == 0x0B || n == 0x0C || n == 0x0D || n == 0x20 ||
  n == 0xA0 || n == 0x1680 || (0x2000 ≤ n && n ≤ 0x200A) || n == 0x2028 ||
  n == 0x2029 || n == 0x202F || n == 0x205F || n == 0x3000 || n == 0xFEFF

/-- The method `p.trim()`: white space removed from both ends. -/
def trim (p : String) : String :=
  String.mk ((p.data.dropWhile isJsWhiteSpace).reverse.dropWhile isJsWhiteSpace).reverse

/-- Array read `xs[i]` for a number `i` that is an integer: `undefined`
(here `none`) outside `0 .. xs.length - 1`. -/
def jsIndex {α : Type} (xs : List α) (i : Int) : Option α :=
  if i < 0 then none else xs[i.toNat]?

/-- A non-negative binary64 number, written as the fraction `mant / 2 ^ exp`. -/
structure Draw where
  mant : Nat
  exp : Nat
deriving DecidableEq, Repr

/-- What `Math.random()` can return: a binary64 number `r` with `0 ≤ r < 1`.
These are the fractions `mant / 2 ^ exp` with a mantissa of at most 53 bits, an
exponent of at most 1074 (the finest binary64 spacing is `2 ^ -1074`) and
`mant < 2 ^ exp`. -/
def isUnitDouble (r : Draw) : Bool :=
  decide (r.mant < 2 ^ 53) && decide (r.exp ≤ 1074) && decide (r.mant < 2 ^ r.exp)

/-- Number of binary digits, by halving at most `fuel` times. -/
def bitLengthAux : Nat → Nat → Nat
  | 0, _ => 0
  | fuel + 1, n => if n = 0 then 0 else bitLengthAux fuel (n / 2) + 1

/-- Number of binary digits of `n`. -/
def bitLength (n : Nat) : Nat :=
  bitLengthAux n n

/-- Rounding of binary64 arithmetic, on a numerator: `n` is kept when it has at
most 53 binary digits, and otherwise goes to the nearest number with 53
significant digits, a tie going to the one whose last kept digit is even. -/
def roundMantissa (n : Nat) : Nat :=
  if n < 2 ^ 53 then n
  else
    let shift := bitLength n - 53
    let q := n / 2 ^ shift
    let rem := n % 2 ^ shift
    let half := 2 ^ (shift - 1)
    if rem < half then q * 2 ^ shift
    else if half < rem then (q + 1) * 2 ^ shift
    else if q % 2 = 0 then q * 2 ^ shift
    else (q + 1) * 2 ^ shift

/-- The expression `Math.floor(r * len)` for a draw `r` of `Math.random()` and
an array length `len` (below `2 ^ 32`, so exact as a binary64 number).  The
exact product is `r.mant * len / 2 ^ r.exp`; the multiplication delivers it
rounded to binary64, which is `roundMantissa` of the numerator over the same
power of two (with `r.exp ≤ 1074` a numerator that needs rounding lies above the
subnormal range); `Math.floor` is then the integer quotient. -/
def floorScaled (r : Draw) (len : Nat) : Nat :=
  roundMantissa (r.mant * len) / 2 ^ r.exp

/-- The call `Object.keys(CATEGORIES)`. -/
def categoryKeys : List String :=
  CATEGORIES.map Prod.fst

/-! ## Component state -/

/-- The values that `setGameState` and the comment above it mention. -/
inductive GameState where
  | setup
  | assign
  | reveal
  | playing
  | voting
  | results
deriving DecidableEq, Repr

/-- The `useState` cells of `ImpostorGame`, in declaration order. -/
structure State where
  gameState : GameState
  players : List String
  category : String
  secretWord : String
  decoyWord : String
  impostorIndex : Option Int
  currentRevealIndex : Nat
  isRevealing : Bool
  currentRound : Nat
  currentPlayerTurn : Nat
  timeLeft : Int
  timerActive : Bool
  voteSelection : Option Nat
deriving DecidableEq, Repr

/-- A setup screen filled in for three players, two of the names typed with
surrounding blanks. -/
def sampleSetup : State where
  gameState := GameState.setup
  players := [" Ana", "Ben ", "Cy"]
  category := "Animals"
  secretWord := ""
  decoyWord := ""
  impostorIndex := none
  currentRevealIndex := 0
  isRevealing := false
  currentRound := 1
  currentPlayerTurn := 0
  timeLeft := 20
  timerActive := false
  voteSelection := none

/-- The sample roster after its reveal walk: three players, `playing`, first
turn of the first round. -/
def samplePlaying : State where
  gameState := GameState.playing
  players := ["Ana", "Ben", "Cy"]
  category := "Animals"
  secretWord := "Lion"
  decoyWord := "Wild Beast"
  impostorIndex := some 1
  currentRevealIndex := 2
  isRevealing := false
  currentRound := 1
  currentPlayerTurn := 0
  timeLeft := 20
  timerActive := false
  voteSelection := none

/-- The sample roster at the start of its reveal walk. -/
def sampleAssign : State where
  gameState := GameState.assign
  players := ["Ana", "Ben", "Cy"]
  category := "Animals"
  secretWord := "Lion"
  decoyWord := "Wild Beast"
  impostorIndex := some 1
  currentRevealIndex := 0
  isRevealing := false
  currentRound := 1
  currentPlayerTurn := 0
  timeLeft := 20
  timerActive := false
  voteSelection := none

/-- The sample roster at the vote, reached by an emergency vote during the
second round with the timer running. -/
def sampleVoting : State where
  gameState := GameState.voting
  players := ["Ana", "Ben", "Cy"]
  category := "Animals"
  secretWord := "Lion"
  decoyWord := "Wild Beast"
  impostorIndex := some 1
  currentRevealIndex := 2
  isRevealing := false
  currentRound := 2
  currentPlayerTurn := 1
  timeLeft := 12
  timerActive := true
  voteSelection := none

/-- The sample game finished: Ben was accused. -/
def sampleResults : State where
  gameState := GameState.results
  players := ["Ana", "Ben", "Cy"]
  category := "Animals"
  secretWord := "Lion"
  decoyWord := "Wild Beast"
  impostorIndex := some 1
  currentRevealIndex := 2
  isRevealing := false
  currentRound := 3
  currentPlayerTurn := 2
  timeLeft := 20
  timerActive := false
  voteSelection := some 1

/-- The initial values given to `useState`. -/
def initialState : State where
  gameState := GameState.setup
  players := ["", "", ""]
  category := "Random"
  secretWord := ""
  decoyWord := ""
  impostorIndex := none
  currentRevealIndex := 0
  isRevealing := false
  currentRound := 1
  currentPlayerTurn := 0
  timeLeft := TURN_TIME_SEC
  timerActive := false
  voteSelection := none

/-! ## The timer effect -/

/-- The state change made by one run of the `useEffect` body: with the timer
active and time left it only installs the interval; otherwise, at
`timeLeft === 0`, it calls `setTimerActive(false)`. -/
def timerEffect (s : State) : State :=
  if s.timerActive && decide (0 < s.timeLeft) then s
  else if s.timeLeft = 0 then { s with timerActive := false }
  else s

/-- One firing of the interval callback `setTimeLeft((t) => t - 1)` followed by
the effect run that the changed `timeLeft` triggers.  The interval exists only
while `timerActive && timeLeft > 0`; without it nothing fires. -/
def tick (s : State) : State :=
  if s.timerActive && decide (0 < s.timeLeft) then
    timerEffect { s with timeLeft := s.timeLeft - 1 }
  else s

/-- The `Start Timer` control, `setTimerActive(true)`, followed by the effect
run that the changed `timerActive` triggers. -/
def startTimer (s : State) : State :=
  timerEffect { s with timerActive := true }

/-! ## Actions -/

def handleAddPlayer (s : State) : State :=
  if s.players.length < MAX_PLAYERS then { s with players := s.players ++ [""] }
  else s

def handleRemovePlayer (s : State) (idx : Nat) : State :=
  if s.players.length > MIN_PLAYERS then { s with players := s.players.eraseIdx idx }
  else s

/-- Assignment `newPlayers[idx] = val` for an index of an existing slot (the
only indices the setup screen passes). -/
def handleNameChange (s : State) (idx : Nat) (val : String) : State :=
  { s with players := s.players.set idx val }

/-- Step 1 of `startGame`: `players.map(p => p.trim()).filter(p => p !== '')`. -/
def validPlayers (players : List String) : List String :=
  (players.map trim).filter (fun p => p != "")

/-- Step 2 of `startGame`, first half: the category actually used.  `rCat` is
the draw consumed only for `'Random'`; an index outside `cats` reads
`undefined`. -/
def selectCategory (category : String) (rCat : Draw) : Option String :=
  if category == "Random" then
    jsIndex categoryKeys (floorScaled rCat categoryKeys.length)
  else some category

/-- The array `pairs = CATEGORIES[selectedCat]` of step 2; `none` is `undefined`
(the selection is taken to be `'Random'` or an own key of `CATEGORIES`, the only
values `setCategory` is called with). -/
def selectPairs (category : String) (rCat : Draw) : Option (List WordPair) :=
  (selectCategory category rCat).bind fun selectedCat => CATEGORIES.lookup selectedCat

/-- Step 2 of `startGame`: the category actually used and the pair drawn from
it; `none` when `pairs` or `pair` is `undefined`. -/
def selectWordPair (category : String) (rCat rPair : Draw) : Option (String × WordPair) :=
  (selectCategory category rCat).bind fun selectedCat =>
    (CATEGORIES.lookup selectedCat).bind fun pairs =>
      (jsIndex pairs (floorScaled rPair pairs.length)).bind fun pair =>
        some (selectedCat, pair)

/-- How a handler call ends: it returned, or it threw a `TypeError`.  Either way
the state is the one left by the `setX` calls made up to that point. -/
inductive Outcome where
  | returned (s : State)
  | threw (s : State)
deriving DecidableEq, Repr

/-- The state a handler call leaves. -/
def Outcome.state : Outcome → State
  | Outcome.returned s => s
  | Outcome.threw s => s

/-- The handler `startGame`, with the three draws of `Math.random()` as
arguments.  With `pairs` undefined, `pairs.length` throws before any `setX`
call; with `pair` undefined, `pair.secret` throws after `setPlayers`. -/
def startGame (s : State) (rCat rPair rImp : Draw) : Outcome :=
  let valid := validPlayers s.players
  if valid.length < MIN_PLAYERS then Outcome.returned s
  else
    match selectPairs s.category rCat with
    | none => Outcome.threw s
    | some pairs =>
      match jsIndex pairs (floorScaled rPair pairs.length) with
      | none => Outcome.threw { s with players := valid }
      | some pair =>
        let impIdx := floorScaled rImp valid.length
        Outcome.returned { s with
          players := valid
          secretWord := pair.secret
          decoyWord := pair.decoy
          impostorIndex := some (impIdx : Int)
          currentRevealIndex := 0
          gameState := GameState.assign }

def nextReveal (s : State) : State :=
  if s.currentRevealIndex < s.players.length - 1 then
    { s with
      currentRevealIndex := s.currentRevealIndex + 1
      isRevealing := false }
  else
    { s with
      gameState := GameState.playing
      currentRound := 1
      currentPlayerTurn := 0
      timeLeft := TURN_TIME_SEC
      timerActive := false }

/-- The handler `nextTurn`.  The remainder is the one of JavaScript for a
roster that is not empty. -/
def nextTurn (s : State) : State :=
  let s1 := { s with timerActive := false, timeLeft := TURN_TIME_SEC }
  let nextPlayer := (s.currentPlayerTurn + 1) % s.players.length
  if nextPlayer = 0 then
    if s.currentRound < ROUNDS_TOTAL then
      { s1 with
        currentRound := s.currentRound + 1
        currentPlayerTurn := 0 }
    else { s1 with gameState := GameState.voting }
  else { s1 with currentPlayerTurn := nextPlayer }

/-- The `Emergency Vote` control: `setGameState('voting')`. -/
def emergencyVote (s : State) : State :=
  { s with gameState := GameState.voting }

def handleVote (s : State) (idx : Nat) : State :=
  { s with voteSelection := some idx, gameState := GameState.results }

def resetGame (s : State) : State :=
  { s with
    gameState := GameState.setup
    voteSelection := none
    currentRound := 1
    isRevealing := false }

def playAgainSamePlayers (s : State) : State :=
  { s with gameState := GameState.setup, voteSelection := none }

/-- The cells that hold what `startGame` assigned. -/
def sameAssignment (s t : State) : Prop :=
  t.secretWord = s.secretWord ∧ t.decoyWord = s.decoyWord ∧
  t.impostorIndex = s.impostorIndex ∧ t.players = s.players

/-! ## What the screens compute -/

/-- Assign screen: `currentRevealIndex === impostorIndex`. -/
def isImpostor (s : State) : Bool :=
  some (s.currentRevealIndex : Int) == s.impostorIndex

/-- The role test of the assign screen asked for player `p`. -/
def isImpostorAt (s : State) (p : Nat) : Bool :=
  isImpostor { s with currentRevealIndex := p }

/-- Results screen: `voteSelection === impostorIndex` (`null === null` holds). -/
def imposterCaught (s : State) : Bool :=
  s.voteSelection.map Int.ofNat == s.impostorIndex

/-- Results screen: `players[impostorIndex]`. -/
def impostorName (s : State) : Option String :=
  match s.impostorIndex with
  | none => none
  | some i => jsIndex s.players i

/-- What the results screen displays. -/
structure ResultsView where
  imposterCaught : Bool
  headline : String
  impostorName : Option String
  decoyWord : String
  secretWord : String
deriving DecidableEq, Repr

/-- The branch `if (gameState === 'results')` of the render function. -/
def renderResults (s : State) : Option ResultsView :=
  if s.gameState = GameState.results then
    some
      { imposterCaught := imposterCaught s
        headline := if imposterCaught s then "Crew Wins!" else "Impostor Wins!"
        impostorName := impostorName s
        decoyWord := s.decoyWord
        secretWord := s.secretWord }
  else none

/-! ## The controls of each screen -/

/-- The events a screen can deliver to the component: one constructor for every
`onClick`, `onChange` and pointer handler of the render function. -/
inductive Action where
  | addPlayer
  | removePlayer (idx : Nat)
  | nameChange (idx : Nat) (val : String)
  | setCategory (cat : String)
  | startGame (rCat rPair rImp : Draw)
  | revealDown
  | revealUp
  | nextReveal
  | emergencyVote
  | startTimer
  | nextTurn
  | vote (idx : Nat)
  | playAgainSamePlayers
  | resetGame

/-- The handler an event runs, with no regard to the screen shown. -/
def perform (s : State) : Action → Outcome
  | Action.addPlayer => Outcome.returned (handleAddPlayer s)
  | Action.removePlayer idx => Outcome.returned (handleRemovePlayer s idx)
  | Action.nameChange idx val => Outcome.returned (handleNameChange s idx val)
  | Action.setCategory cat => Outcome.returned { s with category := cat }
  | Action.startGame rCat rPair rImp => startGame s rCat rPair rImp
  | Action.revealDown => Outcome.returned { s with isRevealing := true }
  | Action.revealUp => Outcome.returned { s with isRevealing := false }
  | Action.nextReveal => Outcome.returned (nextReveal s)
  | Action.emergencyVote => Outcome.returned (emergencyVote s)
  | Action.startTimer => Outcome.returned (startTimer s)
  | Action.nextTurn => Outcome.returned (nextTurn s)
  | Action.vote idx => Outcome.returned (handleVote s idx)
  | Action.playAgainSamePlayers => Outcome.returned (playAgainSamePlayers s)
  | Action.resetGame => Outcome.returned (resetGame s)

/-- Whether the render function, in state `s`, puts on screen an enabled control
that delivers the event: the five `if (gameState === ...)` branches and the
conditions inside them. -/
def offered (s : State) : Action → Bool
  | Action.addPlayer =>
      s.gameState == GameState.setup && decide (s.players.length < MAX_PLAYERS)
  | Action.removePlayer idx =>
      s.gameState == GameState.setup && decide (idx < s.players.length) &&
        decide (s.players.length > MIN_PLAYERS)
  | Action.nameChange idx _ =>
      s.gameState == GameState.setup && decide (idx < s.players.length)
  | Action.setCategory cat =>
      s.gameState == GameState.setup && ("Random" :: categoryKeys).contains cat
  | Action.startGame _ _ _ =>
      s.gameState == GameState.setup && !(s.players.any (fun p => trim p == ""))
  | Action.revealDown => s.gameState == GameState.assign
  | Action.revealUp => s.gameState == GameState.assign
  | Action.nextReveal => s.gameState == GameState.assign && !s.isRevealing
  | Action.emergencyVote => s.gameState == GameState.playing
  | Action.startTimer =>
      s.gameState == GameState.playing &&
        (!s.timerActive && decide (s.timeLeft = TURN_TIME_SEC))
  | Action.nextTurn =>
      s.gameState == GameState.playing &&
        !(!s.timerActive && decide (s.timeLeft = TURN_TIME_SEC))
  | Action.vote idx =>
      s.gameState == GameState.voting && decide (idx < s.players.length)
  | Action.playAgainSamePlayers => s.gameState == GameState.results
  | Action.resetGame => s.gameState == GameState.results

/-- An event at the screen: with the control on screen and enabled its handler
runs; without it the event cannot be delivered and no handler runs (`none`). -/
def dispatch (s : State) (a : Action) : Option Outcome :=
  if offered s a then some (perform s a) else none

/-- The state after an event at the screen; an event that is not delivered
leaves the state alone. -/
def afterEvent (s : State) (a : Action) : State :=
  match dispatch s a with
  | some o => o.state
  | none => s

/-- The phase in which the render function shows the control of a
phase-changing operation; `none` for the events that change no phase. -/
def validPhase : Action → Option GameState
  | Action.startGame _ _ _ => some GameState.setup
  | Action.nextReveal => some GameState.assign
  | Action.nextTurn => some GameState.playing
  | Action.emergencyVote => some GameState.playing
  | Action.vote _ => some GameState.voting
  | Action.playAgainSamePlayers => some GameState.results
  | Action.resetGame => some GameState.results
  | _ => none

/-- The argument of the `setGameState` call in the handler of a phase-changing
operation. -/
def targetPhase : Action → Option GameState
  | Action.startGame _ _ _ => some GameState.assign
  | Action.nextReveal => some GameState.playing
  | Action.nextTurn => some GameState.voting
  | Action.emergencyVote => some GameState.voting
  | Action.vote _ => some GameState.results
  | Action.playAgainSamePlayers => some GameState.setup
  | Action.resetGame => some GameState.setup
  | _ => none

/-! ## Runs of the setup operations -/

/-- The four operations that write the `players` cell: `handleAddPlayer`,
`handleRemovePlayer`, `handleNameChange` and `startGame`. -/
def rosterOp : Action → Bool
  | Action.addPlayer => true
  | Action.removePlayer _ => true
  | Action.nameChange _ _ => true
  | Action.startGame _ _ _ => true
  | _ => false

/-- A name change addresses an existing slot of the roster. -/
def inRange (s : State) : Action → Bool
  | Action.nameChange idx _ => decide (idx < s.players.length)
  | _ => true

/-- The state one handler call leaves, thrown or not. -/
def step (s : State) (a : Action) : State :=
  (perform s a).state

/-- The state after a sequence of handler calls, first call first. -/
def runActions : State → List Action → State
  | s, [] => s
  | s, a :: rest => runActions (step s a) rest

/-- Every call of the sequence is one of the four roster operations, and every
name change addresses a slot that exists when it is made. -/
def rosterRun : State → List Action → Bool
  | _, [] => true
  | s, a :: rest => rosterOp a && inRange s a && rosterRun (step s a) rest

/-- The setup screen filled in: a fourth slot added and removed again, three
names typed. -/
def sampleSetupOps : List Action :=
  [ Action.addPlayer,
    Action.nameChange 0 " Ana",
    Action.nameChange 1 "Ben ",
    Action.nameChange 2 "Cy",
    Action.nameChange 3 "Dee",
    Action.removePlayer 3 ]

/-- The state after a sequence of events at the screen, first event first;
`none` when one of them finds no enabled control, so that the sequence cannot
happen. -/
def uiRun : State → List Action → Option State
  | s, [] => some s
  | s, a :: rest => if offered s a then uiRun (step s a) rest else none

/-- The sample setup followed by the choice of a category. -/
def sampleSetupEvents : List Action :=
  sampleSetupOps ++ [Action.setCategory "Animals"]

/-- Whether a string begins or ends with a white space character. -/
def outerWhiteSpace (p : String) : Bool :=
  (match p.data.head? with
    | some c => isJsWhiteSpace c
    | none => false) ||
  (match p.data.getLast? with
    | some c => isJsWhiteSpace c
    | none => false)

/-- A setup screen half filled in: a fourth slot added, one name typed. -/
def sampleHalfFilled : State where
  gameState := GameState.setup
  players := [" Ana", "", "", ""]
  category := "Random"
  secretWord := ""
  decoyWord := ""
  impostorIndex := none
  currentRevealIndex := 0
  isRevealing := false
  currentRound := 1
  currentPlayerTurn := 0
  timeLeft := 20
  timerActive := false
  voteSelection := none

/-- The sample game in its first turn, eight seconds after `Start Timer`. -/
def sampleRunning : State :=
  tick^[8] (startTimer samplePlaying)

/-! ## Turn rotation -/

theorem nextTurn_mid (t : State) (h : t.currentPlayerTurn + 1 < t.players.length) :
    nextTurn t = { t with
      timerActive := false
      timeLeft := TURN_TIME_SEC
      currentPlayerTurn := t.currentPlayerTurn + 1 } := by
  have hmod : (t.currentPlayerTurn + 1) % t.players.length = t.currentPlayerTurn + 1 :=
    Nat.mod_eq_of_lt h
  simp [nextTurn, hmod]

theorem nextTurn_wrap (t : State) (h : t.currentPlayerTurn + 1 = t.players.length)
    (hr : t.currentRound < ROUNDS_TOTAL) :
    nextTurn t = { t with
      timerActive := false
      timeLeft := TURN_TIME_SEC
      currentRound := t.currentRound + 1
      currentPlayerTurn := 0 } := by
  simp [nextTurn, h, hr]

theorem nextTurn_last (t : State) (h : t.currentPlayerTurn + 1 = t.players.length)
    (hr : ¬ t.currentRound < ROUNDS_TOTAL) :
    nextTurn t = { t with
      timerActive := false
      timeLeft := TURN_TIME_SEC
      gameState := GameState.voting } := by
  simp [nextTurn, h, hr]

/-- While fewer than `n * ROUNDS_TOTAL` turns are finished the game is in
`playing`, and the number of finished turns is the cursor plus `n` for every
completed round. -/
theorem nextTurn_iterate_inv (s : State) (n : Nat) (hlen : s.players.length = n)
    (hg : s.gameState = GameState.playing) (ht : s.currentPlayerTurn = 0)
    (hr : s.currentRound = 1) (k : Nat) (hk : k < n * ROUNDS_TOTAL) :
    (nextTurn^[k] s).gameState = GameState.playing ∧
    (nextTurn^[k] s).players.length = n ∧
    (nextTurn^[k] s).currentPlayerTurn < n ∧
    1 ≤ (nextTurn^[k] s).currentRound ∧
    (nextTurn^[k] s).currentRound ≤ ROUNDS_TOTAL ∧
    (nextTurn^[k] s).currentPlayerTurn + ((nextTurn^[k] s).currentRound - 1) * n = k := by
  induction k with
  | zero =>
    simp only [ROUNDS_TOTAL] at hk
    simp [hg, ht, hr, hlen, ROUNDS_TOTAL]
    omega
  | succ k ih =>
    obtain ⟨ig, il, it, ir1, ir3, ik⟩ := ih (by omega)
    rw [Function.iterate_succ_apply']
    generalize nextTurn^[k] s = t at ig il it ir1 ir3 ik
    simp only [ROUNDS_TOTAL] at hk ir3 ⊢
    by_cases hmid : t.currentPlayerTurn + 1 < t.players.length
    · rw [nextTurn_mid t hmid]
      simp only [ig, il]
      refine ⟨trivial, trivial, by omega, ir1, ir3, by omega⟩
    · have hend : t.currentPlayerTurn + 1 = t.players.length := by omega
      have hcases : t.currentRound = 1 ∨ t.currentRound = 2 ∨ t.currentRound = 3 := by omega
      rcases hcases with h | h | h
      · rw [nextTurn_wrap t hend (by simp [ROUNDS_TOTAL, h])]
        simp only [ig, il, h] at ik ⊢
        refine ⟨trivial, trivial, by omega, by omega, by omega, by omega⟩
      · rw [nextTurn_wrap t hend (by simp [ROUNDS_TOTAL, h])]
        simp only [ig, il, h] at ik ⊢
        refine ⟨trivial, trivial, by omega, by omega, by omega, by omega⟩
      · exfalso
        rw [h] at ik
        omega

/-- C2: for a roster of `n` players, `3 ≤ n ≤ 7`, from `playing` with the turn
cursor at 0 and round 1, `nextTurn` called `n * ROUNDS_TOTAL` times leaves the
game in `voting`; after every smaller number of calls it is still `playing`;
and after each of the calls the round is at most `ROUNDS_TOTAL` and the turn
cursor is below `n`. -/
theorem nextTurn_rotation (s : State) (n : Nat) (hn : 3 ≤ n ∧ n ≤ 7)
    (hlen : s.players.length = n) (hg : s.gameState = GameState.playing)
    (ht : s.currentPlayerTurn = 0) (hr : s.currentRound = 1) :
    (nextTurn^[n * ROUNDS_TOTAL] s).gameState = GameState.voting ∧
    (∀ k, k < n * ROUNDS_TOTAL → (nextTurn^[k] s).gameState = GameState.playing) ∧
    (∀ k, k ≤ n * ROUNDS_TOTAL →
      1 ≤ (nextTurn^[k] s).currentRound ∧
      (nextTurn^[k] s).currentRound ≤ ROUNDS_TOTAL ∧
      (nextTurn^[k] s).currentPlayerTurn < n) := by
  have hlast : (nextTurn^[n * ROUNDS_TOTAL] s).gameState = GameState.voting ∧
      1 ≤ (nextTurn^[n * ROUNDS_TOTAL] s).currentRound ∧
      (nextTurn^[n * ROUNDS_TOTAL] s).currentRound ≤ ROUNDS_TOTAL ∧
      (nextTurn^[n * ROUNDS_TOTAL] s).currentPlayerTurn < n := by
    have hpos : n * ROUNDS_TOTAL = (n * ROUNDS_TOTAL - 1) + 1 := by
      simp only [ROUNDS_TOTAL]; omega
    obtain ⟨ig, il, it, ir1, ir3, ik⟩ :=
      nextTurn_iterate_inv s n hlen hg ht hr (n * ROUNDS_TOTAL - 1)
        (by simp only [ROUNDS_TOTAL]; omega)
    rw [hpos, Function.iterate_succ_apply']
    generalize nextTurn^[n * ROUNDS_TOTAL - 1] s = t at ig il it ir1 ir3 ik
    simp only [ROUNDS_TOTAL] at ir3 ik ⊢
    have hcases : t.currentRound = 1 ∨ t.currentRound = 2 ∨ t.currentRound = 3 := by omega
    have hround : t.currentRound = 3 := by
      rcases hcases with h | h | h
      · rw [h] at ik; omega
      · rw [h] at ik; omega
      · exact h
    rw [hround] at ik
    have hend : t.currentPlayerTurn + 1 = t.players.length := by omega
    rw [nextTurn_last t hend (by simp [ROUNDS_TOTAL, hround])]
    simp only [hround]
    exact ⟨trivial, by omega, by omega, it⟩
  refine ⟨hlast.1, fun k hk => (nextTurn_iterate_inv s n hlen hg ht hr k hk).1, ?_⟩
  intro k hk
  rcases Nat.lt_or_ge k (n * ROUNDS_TOTAL) with hlt | hge
  · obtain ⟨-, -, it, ir1, ir3, -⟩ := nextTurn_iterate_inv s n hlen hg ht hr k hlt
    exact ⟨ir1, ir3, it⟩
  · have hkeq : k = n * ROUNDS_TOTAL := le_antisymm hk hge
    subst hkeq
    exact hlast.2

/-- Witness for C2: three players, nine finished turns. -/
theorem nextTurn_rotation_witness :
    ((3 ≤ 3 ∧ 3 ≤ 7) ∧ samplePlaying.players.length = 3 ∧
      samplePlaying.gameState = GameState.playing ∧
      samplePlaying.currentPlayerTurn = 0 ∧ samplePlaying.currentRound = 1) ∧
    (nextTurn^[3 * ROUNDS_TOTAL] samplePlaying).gameState = GameState.voting ∧
    (∀ k, k < 3 * ROUNDS_TOTAL →
      (nextTurn^[k] samplePlaying).gameState = GameState.playing) ∧
    (∀ k, k ≤ 3 * ROUNDS_TOTAL →
      1 ≤ (nextTurn^[k] samplePlaying).currentRound ∧
      (nextTurn^[k] samplePlaying).currentRound ≤ ROUNDS_TOTAL ∧
      (nextTurn^[k] samplePlaying).currentPlayerTurn < 3) :=
  ⟨⟨by decide, rfl, rfl, rfl, rfl⟩,
    nextTurn_rotation samplePlaying 3 (by decide) rfl rfl rfl rfl⟩

/-! ## Reveal walk -/

theorem nextReveal_step (t : State) (h : t.currentRevealIndex + 1 < t.players.length) :
    nextReveal t = { t with
      currentRevealIndex := t.currentRevealIndex + 1
      isRevealing := false } := by
  have h' : t.currentRevealIndex < t.players.length - 1 := by omega
  simp [nextReveal, h']

theorem nextReveal_done (t : State) (h : ¬ t.currentRevealIndex + 1 < t.players.length) :
    nextReveal t = { t with
      gameState := GameState.playing
      currentRound := 1
      currentPlayerTurn := 0
      timeLeft := TURN_TIME_SEC
      timerActive := false } := by
  have h' : ¬ t.currentRevealIndex < t.players.length - 1 := by omega
  simp [nextReveal, h']

/-- Fewer than `n` calls of `nextReveal` only move the reveal cursor. -/
theorem nextReveal_iterate_inv (s : State) (n : Nat) (hlen : s.players.length = n)
    (hg : s.gameState = GameState.assign) (hc : s.currentRevealIndex = 0)
    (k : Nat) (hk : k < n) :
    (nextReveal^[k] s).gameState = GameState.assign ∧
    (nextReveal^[k] s).players.length = n ∧
    (nextReveal^[k] s).currentRevealIndex = k := by
  induction k with
  | zero => exact ⟨hg, hlen, hc⟩
  | succ k ih =>
    obtain ⟨ig, il, ic⟩ := ih (by omega)
    rw [Function.iterate_succ_apply']
    generalize nextReveal^[k] s = t at ig il ic
    rw [nextReveal_step t (by omega)]
    exact ⟨ig, il, by simp [ic]⟩

/-- C3: for a roster of `n` players, `3 ≤ n ≤ 7`, from `assign` with the reveal
cursor at 0, the first `n - 1` calls of `nextReveal` stay in `assign`, each
moving the cursor up by one and keeping it below `n`; the `n`-th call, and no
earlier one, enters `playing`, with round 1, turn cursor 0 and the timer at
`TURN_TIME_SEC` and stopped. -/
theorem nextReveal_walk (s : State) (n : Nat) (hn : 3 ≤ n ∧ n ≤ 7)
    (hlen : s.players.length = n) (hg : s.gameState = GameState.assign)
    (hc : s.currentRevealIndex = 0) :
    (∀ k, k < n →
      (nextReveal^[k] s).gameState = GameState.assign ∧
      (nextReveal^[k] s).currentRevealIndex = k ∧
      (nextReveal^[k] s).currentRevealIndex < n) ∧
    (∀ k, k + 1 < n →
      (nextReveal^[k + 1] s).currentRevealIndex = (nextReveal^[k] s).currentRevealIndex + 1) ∧
    (nextReveal^[n] s).gameState = GameState.playing ∧
    (nextReveal^[n] s).currentRound = 1 ∧
    (nextReveal^[n] s).currentPlayerTurn = 0 ∧
    (nextReveal^[n] s).timeLeft = TURN_TIME_SEC ∧
    (nextReveal^[n] s).timerActive = false := by
  refine ⟨?_, ?_, ?_⟩
  · intro k hk
    obtain ⟨ig, -, ic⟩ := nextReveal_iterate_inv s n hlen hg hc k hk
    exact ⟨ig, ic, by omega⟩
  · intro k hk
    rw [(nextReveal_iterate_inv s n hlen hg hc (k + 1) hk).2.2,
      (nextReveal_iterate_inv s n hlen hg hc k (by omega)).2.2]
  · obtain ⟨-, il, ic⟩ := nextReveal_iterate_inv s n hlen hg hc (n - 1) (by omega)
    have hpos : n = (n - 1) + 1 := by omega
    rw [hpos, Function.iterate_succ_apply']
    generalize nextReveal^[n - 1] s = t at il ic
    rw [nextReveal_done t (by omega)]
    exact ⟨rfl, rfl, rfl, rfl, rfl⟩

/-- Witness for C3: the reveal walk of three players. -/
theorem nextReveal_walk_witness :
    ((3 ≤ 3 ∧ 3 ≤ 7) ∧ sampleAssign.players.length = 3 ∧
      sampleAssign.gameState = GameState.assign ∧ sampleAssign.currentRevealIndex = 0) ∧
    (∀ k, k < 3 →
      (nextReveal^[k] sampleAssign).gameState = GameState.assign ∧
      (nextReveal^[k] sampleAssign).currentRevealIndex = k ∧
      (nextReveal^[k] sampleAssign).currentRevealIndex < 3) ∧
    (∀ k, k + 1 < 3 →
      (nextReveal^[k + 1] sampleAssign).currentRevealIndex =
        (nextReveal^[k] sampleAssign).currentRevealIndex + 1) ∧
    (nextReveal^[3] sampleAssign).gameState = GameState.playing ∧
    (nextReveal^[3] sampleAssign).currentRound = 1 ∧
    (nextReveal^[3] sampleAssign).currentPlayerTurn = 0 ∧
    (nextReveal^[3] sampleAssign).timeLeft = TURN_TIME_SEC ∧
    (nextReveal^[3] sampleAssign).timerActive = false :=
  ⟨⟨by decide, rfl, rfl, rfl⟩, nextReveal_walk sampleAssign 3 (by decide) rfl rfl rfl⟩

/-! ## Voting and results -/

/-- C4: in `voting` with `n` players and the impostor index `i` in `[0, n)`,
`handleVote` with an accused index `a` below `n` enters `results`; the results
screen reports that the crew wins exactly when `a = i` and that the impostor
wins otherwise; the impostor name shown is `players[i]`, and the secret word and
the hint shown are the stored ones. -/
theorem handleVote_outcome (s : State) (n : Nat) (i : Int) (a : Nat)
    (_hg : s.gameState = GameState.voting) (hlen : s.players.length = n)
    (hi : s.impostorIndex = some i) (hi0 : 0 ≤ i) (hin : i < n) (ha : a < n) :
    (handleVote s a).gameState = GameState.results ∧
    ∃ v name, renderResults (handleVote s a) = some v ∧
      (v.imposterCaught = true ↔ (a : Int) = i) ∧
      (v.headline = "Crew Wins!" ↔ (a : Int) = i) ∧
      (v.headline = "Impostor Wins!" ↔ (a : Int) ≠ i) ∧
      s.players[i.toNat]? = some name ∧ v.impostorName = some name ∧
      v.secretWord = s.secretWord ∧ v.decoyWord = s.decoyWord := by
  have hlt : i.toNat < s.players.length := by omega
  have hname : impostorName (handleVote s a) = some s.players[i.toNat] := by
    simp only [impostorName, handleVote, hi, jsIndex, if_neg (not_lt.mpr hi0)]
    exact List.getElem?_eq_getElem hlt
  have hcaught : imposterCaught (handleVote s a) = true ↔ (a : Int) = i := by
    simp [imposterCaught, handleVote, hi]
  have hrender : renderResults (handleVote s a) = some
      { imposterCaught := imposterCaught (handleVote s a)
        headline := if imposterCaught (handleVote s a) then "Crew Wins!" else "Impostor Wins!"
        impostorName := impostorName (handleVote s a)
        decoyWord := s.decoyWord
        secretWord := s.secretWord } := by
    simp [renderResults, handleVote]
  refine ⟨rfl, _, s.players[i.toNat], hrender, hcaught, ?_, ?_,
    List.getElem?_eq_getElem hlt, hname, rfl, rfl⟩
  · by_cases h : (a : Int) = i
    · simp [hcaught.mpr h, h]
    · have hf : imposterCaught (handleVote s a) = false := by
        simpa using fun hc => h (hcaught.mp hc)
      simp [hf, h]
  · by_cases h : (a : Int) = i
    · simp [hcaught.mpr h, h]
    · have hf : imposterCaught (handleVote s a) = false := by
        simpa using fun hc => h (hcaught.mp hc)
      simp [hf, h]

/-- Witness for C4: Ben, the impostor, is accused. -/
theorem handleVote_outcome_witness :
    (sampleVoting.gameState = GameState.voting ∧ sampleVoting.players.length = 3 ∧
      sampleVoting.impostorIndex = some 1) ∧
    (handleVote sampleVoting 1).gameState = GameState.results ∧
    ∃ v name, renderResults (handleVote sampleVoting 1) = some v ∧
      (v.imposterCaught = true ↔ ((1 : Nat) : Int) = 1) ∧
      (v.headline = "Crew Wins!" ↔ ((1 : Nat) : Int) = 1) ∧
      (v.headline = "Impostor Wins!" ↔ ((1 : Nat) : Int) ≠ 1) ∧
      sampleVoting.players[(1 : Int).toNat]? = some name ∧ v.impostorName = some name ∧
      v.secretWord = sampleVoting.secretWord ∧ v.decoyWord = sampleVoting.decoyWord :=
  ⟨⟨rfl, rfl, rfl⟩,
    handleVote_outcome sampleVoting 3 1 1 rfl rfl rfl (by decide) (by decide) (by decide)⟩

/-! ## Timer -/

theorem nextTurn_resets_timer (s : State) :
    (nextTurn s).timeLeft = TURN_TIME_SEC ∧ (nextTurn s).timerActive = false := by
  unfold nextTurn
  simp only
  split_ifs <;> exact ⟨rfl, rfl⟩

theorem tick_of_stopped (s : State) (h : s.timerActive = false) : tick s = s := by
  simp [tick, h]

theorem tick_iterate_of_stopped (s : State) (h : s.timerActive = false) (k : Nat) :
    tick^[k] s = s := by
  induction k with
  | zero => rfl
  | succ k ih => rw [Function.iterate_succ_apply', ih, tick_of_stopped s h]

theorem tick_of_running (s : State) (h : s.timerActive = true) (ht : 1 < s.timeLeft) :
    tick s = { s with timeLeft := s.timeLeft - 1 } := by
  have h0 : 0 < s.timeLeft := by omega
  have h1 : 0 < s.timeLeft - 1 := by omega
  simp [tick, timerEffect, h, h0, h1]

theorem tick_of_last_second (s : State) (h : s.timerActive = true) (ht : s.timeLeft = 1) :
    tick s = { s with timeLeft := 0, timerActive := false } := by
  simp [tick, timerEffect, h, ht]

theorem tick_iterate_of_running (s : State) (h : s.timerActive = true) (k : Nat)
    (hk : (k : Int) < s.timeLeft) :
    tick^[k] s = { s with timeLeft := s.timeLeft - k } := by
  induction k with
  | zero => simp
  | succ k ih =>
    rw [Function.iterate_succ_apply', ih (by omega)]
    rw [tick_of_running { s with timeLeft := s.timeLeft - k } h
      (by show 1 < s.timeLeft - k; omega)]
    simp only [Nat.cast_add, Nat.cast_one, sub_sub]

theorem startTimer_of_time_left (s : State) (ht : 0 < s.timeLeft) :
    startTimer s = { s with timerActive := true } := by
  simp [startTimer, timerEffect, ht]

/-- C7, as the claim states it, fails: `nextTurn` resets the timer to 20 seconds
and stopped, and nineteen ticks after that leave it at 20 seconds and stopped,
not at 1 second and running. -/
theorem tick_after_reset_stays :
    (nextTurn samplePlaying).timeLeft = 20 ∧ (nextTurn samplePlaying).timerActive = false ∧
    (tick^[19] (nextTurn samplePlaying)).timeLeft = 20 ∧
    (tick^[19] (nextTurn samplePlaying)).timerActive = false := by
  decide

/-- C7, amended: after a reset (`timeLeft = TURN_TIME_SEC = 20`, timer stopped)
and the `Start Timer` control, nineteen ticks leave 1 second with the timer
running; the 20th tick leaves 0 seconds with the timer stopped; every further tick
changes nothing, and the time left is never below 0.  Only the 20 seconds of the
reset are used: `Start Timer` sets the flag whatever it was. -/
theorem tick_countdown (s : State) (ht : s.timeLeft = TURN_TIME_SEC) :
    (tick^[19] (startTimer s)).timeLeft = 1 ∧
    (tick^[19] (startTimer s)).timerActive = true ∧
    (tick^[20] (startTimer s)).timeLeft = 0 ∧
    (tick^[20] (startTimer s)).timerActive = false ∧
    (∀ k, tick^[20 + k] (startTimer s) = tick^[20] (startTimer s)) ∧
    (∀ k, 0 ≤ (tick^[k] (startTimer s)).timeLeft) := by
  have hstart : startTimer s = { s with timerActive := true } :=
    startTimer_of_time_left s (by rw [ht]; decide)
  have hrun : ∀ k : Nat, k < 20 →
      tick^[k] (startTimer s) = { s with timerActive := true, timeLeft := 20 - (k : Int) } := by
    intro k hk
    rw [hstart, tick_iterate_of_running _ rfl k (by simp only [ht, TURN_TIME_SEC]; omega)]
    simp [ht, TURN_TIME_SEC]
  have h19 : tick^[19] (startTimer s) = { s with timerActive := true, timeLeft := 1 } := by
    rw [hrun 19 (by decide)]
    norm_num
  have h20 : tick^[20] (startTimer s) = { s with timerActive := false, timeLeft := 0 } := by
    have hsucc : tick^[20] (startTimer s) = tick (tick^[19] (startTimer s)) :=
      Function.iterate_succ_apply' tick 19 (startTimer s)
    rw [hsucc, h19, tick_of_last_second _ rfl rfl]
  have hlater : ∀ k, tick^[20 + k] (startTimer s) = tick^[20] (startTimer s) := by
    intro k
    rw [Nat.add_comm, Function.iterate_add_apply, h20, tick_iterate_of_stopped _ rfl k]
  refine ⟨by rw [h19], by rw [h19], by rw [h20], by rw [h20], hlater, ?_⟩
  intro k
  rcases Nat.lt_or_ge k 20 with hk | hk
  · rw [hrun k hk]
    simp only
    omega
  · obtain ⟨j, rfl⟩ := Nat.exists_eq_add_of_le hk
    rw [hlater j, h20]

/-- Witness for C7: the timer of the turn that follows a finished turn. -/
theorem tick_countdown_witness :
    ((nextTurn samplePlaying).timeLeft = TURN_TIME_SEC ∧
      (nextTurn samplePlaying).timerActive = false) ∧
    (tick^[19] (startTimer (nextTurn samplePlaying))).timeLeft = 1 ∧
    (tick^[19] (startTimer (nextTurn samplePlaying))).timerActive = true ∧
    (tick^[20] (startTimer (nextTurn samplePlaying))).timeLeft = 0 ∧
    (tick^[20] (startTimer (nextTurn samplePlaying))).timerActive = false ∧
    (∀ k, tick^[20 + k] (startTimer (nextTurn samplePlaying)) =
      tick^[20] (startTimer (nextTurn samplePlaying))) ∧
    (∀ k, 0 ≤ (tick^[k] (startTimer (nextTurn samplePlaying))).timeLeft) :=
  ⟨⟨by decide, by decide⟩,
    tick_countdown (nextTurn samplePlaying) (by decide)⟩

/-! ## What stays fixed during a game -/

theorem timerEffect_sameAssignment (s : State) : sameAssignment s (timerEffect s) := by
  unfold timerEffect sameAssignment
  split_ifs <;> exact ⟨rfl, rfl, rfl, rfl⟩

/-- C9: each of `nextReveal`, `startTimer`, `tick`, `nextTurn`, the emergency
vote and `handleVote` returns a state whose secret word, hint, impostor index
and players list are those of the state it was given. -/
theorem midgame_keeps_assignment (s : State) (idx : Nat) :
    sameAssignment s (nextReveal s) ∧ sameAssignment s (startTimer s) ∧
    sameAssignment s (tick s) ∧ sameAssignment s (nextTurn s) ∧
    sameAssignment s (emergencyVote s) ∧ sameAssignment s (handleVote s idx) := by
  refine ⟨?_, ?_, ?_, ?_, ?_, ?_⟩
  · unfold nextReveal sameAssignment
    split_ifs <;> exact ⟨rfl, rfl, rfl, rfl⟩
  · exact timerEffect_sameAssignment { s with timerActive := true }
  · unfold tick
    split_ifs
    · exact timerEffect_sameAssignment { s with timeLeft := s.timeLeft - 1 }
    · exact ⟨rfl, rfl, rfl, rfl⟩
  · unfold nextTurn sameAssignment
    simp only
    split_ifs <;> exact ⟨rfl, rfl, rfl, rfl⟩
  · exact ⟨rfl, rfl, rfl, rfl⟩
  · exact ⟨rfl, rfl, rfl, rfl⟩

/-! ## Playing again -/

/-- C10, as the claim states it, fails: after `playAgainSamePlayers` the secret
word, the hint and the impostor index of the finished game are still stored. -/
theorem playAgain_keeps_word :
    sampleResults.gameState = GameState.results ∧
    (playAgainSamePlayers sampleResults).secretWord = "Lion" ∧
    (playAgainSamePlayers sampleResults).secretWord ≠ "" ∧
    (playAgainSamePlayers sampleResults).decoyWord = "Wild Beast" ∧
    (playAgainSamePlayers sampleResults).impostorIndex = some 1 ∧
    (playAgainSamePlayers sampleResults).impostorIndex ≠ none := by
  decide

/-- C10, amended: from `results`, `playAgainSamePlayers` returns a state in
`setup` with the same players list and the vote selection unset; the secret
word, the hint and the impostor index are not cleared: they keep the finished
game's values (the next `startGame` overwrites them). -/
theorem playAgain_effect (s : State) (_hg : s.gameState = GameState.results) :
    (playAgainSamePlayers s).gameState = GameState.setup ∧
    (playAgainSamePlayers s).players = s.players ∧
    (playAgainSamePlayers s).voteSelection = none ∧
    (playAgainSamePlayers s).secretWord = s.secretWord ∧
    (playAgainSamePlayers s).decoyWord = s.decoyWord ∧
    (playAgainSamePlayers s).impostorIndex = s.impostorIndex :=
  ⟨rfl, rfl, rfl, rfl, rfl, rfl⟩

/-- Witness for C10: the finished sample game. -/
theorem playAgain_effect_witness :
    sampleResults.gameState = GameState.results ∧
    (playAgainSamePlayers sampleResults).gameState = GameState.setup ∧
    (playAgainSamePlayers sampleResults).players = sampleResults.players ∧
    (playAgainSamePlayers sampleResults).voteSelection = none ∧
    (playAgainSamePlayers sampleResults).secretWord = sampleResults.secretWord ∧
    (playAgainSamePlayers sampleResults).decoyWord = sampleResults.decoyWord ∧
    (playAgainSamePlayers sampleResults).impostorIndex = sampleResults.impostorIndex :=
  ⟨rfl, playAgain_effect sampleResults rfl⟩

/-! ## Ticks after an emergency vote -/

/-- The emergency vote leaves the timer cells alone, so a running timer keeps
counting in `voting`. -/
theorem tick_after_emergencyVote (s : State) (ha : s.timerActive = true)
    (ht : 0 < s.timeLeft) :
    (emergencyVote s).gameState = GameState.voting ∧
    (emergencyVote s).timerActive = true ∧
    (tick (emergencyVote s)).timeLeft = s.timeLeft - 1 := by
  refine ⟨rfl, ha, ?_⟩
  simp only [tick, emergencyVote, ha, ht, decide_True, Bool.and_self, if_true]
  unfold timerEffect
  simp only
  split_ifs <;> rfl

/-- The other way out of `playing`, the last `nextTurn`, stops the timer first:
ticks after it change nothing. -/
theorem tick_after_nextTurn (s : State) : tick (nextTurn s) = nextTurn s :=
  tick_of_stopped (nextTurn s) (nextTurn_resets_timer s).2

/-- C12 fails on the code: the sample game is in `playing` with the timer
running and 12 seconds left; the emergency vote enters `voting`, and the tick
that follows takes the time left to 11 with the timer still running, so the
state is not the one the emergency vote left. -/
theorem emergencyVote_then_tick_counts :
    sampleRunning.gameState = GameState.playing ∧
    sampleRunning.timerActive = true ∧ sampleRunning.timeLeft = 12 ∧
    (emergencyVote sampleRunning).gameState = GameState.voting ∧
    (tick (emergencyVote sampleRunning)).gameState = GameState.voting ∧
    (tick (emergencyVote sampleRunning)).timeLeft = 11 ∧
    (tick (emergencyVote sampleRunning)).timerActive = true ∧
    tick (emergencyVote sampleRunning) ≠ emergencyVote sampleRunning := by
  refine ⟨by decide, by decide, by decide, rfl, by decide, by decide, by decide, ?_⟩
  intro h
  have hleft : (tick (emergencyVote sampleRunning)).timeLeft =
      (emergencyVote sampleRunning).timeLeft := congrArg State.timeLeft h
  revert hleft
  decide

/-! ## Arithmetic of the draws -/

theorem bitLengthAux_zero (fuel : Nat) : bitLengthAux fuel 0 = 0 := by
  cases fuel <;> simp [bitLengthAux]

theorem bitLengthAux_spec (fuel n : Nat) (hle : n ≤ fuel) (hn : n ≠ 0) :
    2 ^ (bitLengthAux fuel n - 1) ≤ n ∧ n < 2 ^ bitLengthAux fuel n := by
  induction fuel generalizing n with
  | zero => omega
  | succ fuel ih =>
    simp only [bitLengthAux, if_neg hn, Nat.add_sub_cancel]
    by_cases h2 : n / 2 = 0
    · rw [h2, bitLengthAux_zero]
      have : n = 1 := by omega
      subst this
      simp
    · obtain ⟨hlo, hhi⟩ := ih (n / 2) (by omega) h2
      have hpos : bitLengthAux fuel (n / 2) ≠ 0 := by
        intro h0
        rw [h0] at hhi
        simp at hhi
        exact h2 hhi
      obtain ⟨g, hg⟩ := Nat.exists_eq_succ_of_ne_zero hpos
      rw [hg] at hlo hhi ⊢
      simp only [Nat.succ_eq_add_one, Nat.add_sub_cancel] at hlo
      rw [Nat.pow_succ] at hhi ⊢
      rw [Nat.pow_succ]
      constructor <;> omega

/-- A number that is not zero lies between the powers of two its digit count
names. -/
theorem bitLength_spec (n : Nat) (hn : n ≠ 0) :
    2 ^ (bitLength n - 1) ≤ n ∧ n < 2 ^ bitLength n :=
  bitLengthAux_spec n n (Nat.le_refl n) hn

/-- A numerator of at most 53 digits is not changed by the rounding. -/
theorem roundMantissa_exact (n : Nat) (h : n < 2 ^ 53) : roundMantissa n = n := by
  simp only [roundMantissa, if_pos h]

/-- The rounded product of a draw below one and a length stays below the
length: the rounding moves a numerator by at most half a unit of its last kept
digit, which is less than `len`, and the exact product is at least `len` below
`2 ^ k * len`. -/
theorem roundMantissa_lt (m len k : Nat) (hm : m < 2 ^ 53) (hk : m < 2 ^ k)
    (hlen : 0 < len) : roundMantissa (m * len) < 2 ^ k * len := by
  have hstep : m * len + len ≤ 2 ^ k * len := by
    have h1 : (m + 1) * len ≤ 2 ^ k * len := Nat.mul_le_mul_right len hk
    rw [Nat.add_mul, Nat.one_mul] at h1
    exact h1
  by_cases h53 : m * len < 2 ^ 53
  · simp only [roundMantissa, if_pos h53]
    omega
  · have hN0 : m * len ≠ 0 := by
      intro h0
      rw [h0] at h53
      exact h53 (by positivity)
    obtain ⟨hlo, hhi⟩ := bitLength_spec (m * len) hN0
    have hb : 54 ≤ bitLength (m * len) := by
      by_contra hlt
      have hle : bitLength (m * len) ≤ 53 := by omega
      have : 2 ^ bitLength (m * len) ≤ 2 ^ 53 := Nat.pow_le_pow_right (by decide) hle
      omega
    obtain ⟨t, ht⟩ : ∃ t, bitLength (m * len) = t + 54 :=
      ⟨bitLength (m * len) - 54, by omega⟩
    have hshift : bitLength (m * len) - 53 = t + 1 := by omega
    have hhalf : 2 ^ t < len := by
      have h1 : 2 ^ (bitLength (m * len) - 1) = 2 ^ t * 2 ^ 53 := by
        rw [ht, ← Nat.pow_add]
        rfl
      have h2 : m * len < 2 ^ 53 * len := Nat.mul_lt_mul_of_pos_right hm hlen
      have h3 : 2 ^ t * 2 ^ 53 < 2 ^ 53 * len := by
        rw [← h1]
        exact lt_of_le_of_lt hlo h2
      rw [Nat.mul_comm] at h3
      exact Nat.lt_of_mul_lt_mul_left h3
    have hdm := Nat.div_add_mod (m * len) (2 ^ (t + 1))
    have hP : 2 ^ (t + 1) = 2 * 2 ^ t := by rw [Nat.pow_succ]; omega
    simp only [roundMantissa, if_neg h53, hshift, Nat.add_sub_cancel]
    generalize hq : m * len / 2 ^ (t + 1) = q at hdm ⊢
    generalize hr : m * len % 2 ^ (t + 1) = r at hdm ⊢
    have hmul1 : q * 2 ^ (t + 1) = 2 ^ (t + 1) * q := Nat.mul_comm _ _
    have hmul2 : (q + 1) * 2 ^ (t + 1) = 2 ^ (t + 1) * q + 2 ^ (t + 1) := by
      rw [Nat.add_mul, Nat.one_mul, Nat.mul_comm]
    split_ifs <;> omega

/-- A numerator of more than 53 digits goes to a multiple of the unit of its last
kept digit, at most half that unit away. -/
theorem roundMantissa_nearest (n : Nat) (h : 2 ^ 53 ≤ n) :
    2 ^ (bitLength n - 53) ∣ roundMantissa n ∧
    2 * roundMantissa n ≤ 2 * n + 2 ^ (bitLength n - 53) ∧
    2 * n ≤ 2 * roundMantissa n + 2 ^ (bitLength n - 53) := by
  have hn0 : n ≠ 0 := by
    intro h0
    rw [h0] at h
    exact absurd h (by decide)
  obtain ⟨-, hhi⟩ := bitLength_spec n hn0
  have hb : 54 ≤ bitLength n := by
    by_contra hlt
    have hle : bitLength n ≤ 53 := by omega
    have : 2 ^ bitLength n ≤ 2 ^ 53 := Nat.pow_le_pow_right (by decide) hle
    omega
  obtain ⟨t, ht⟩ : ∃ t, bitLength n - 53 = t + 1 := ⟨bitLength n - 54, by omega⟩
  have hdm := Nat.div_add_mod n (2 ^ (t + 1))
  have hmod : n % 2 ^ (t + 1) < 2 ^ (t + 1) := Nat.mod_lt _ (by positivity)
  have hP : 2 ^ (t + 1) = 2 * 2 ^ t := by rw [Nat.pow_succ]; omega
  simp only [roundMantissa, if_neg (not_lt.mpr h), ht, Nat.add_sub_cancel]
  generalize n / 2 ^ (t + 1) = q at hdm ⊢
  generalize n % 2 ^ (t + 1) = r at hdm hmod ⊢
  have hmul1 : q * 2 ^ (t + 1) = 2 ^ (t + 1) * q := Nat.mul_comm _ _
  have hmul2 : (q + 1) * 2 ^ (t + 1) = 2 ^ (t + 1) * q + 2 ^ (t + 1) := by
    rw [Nat.add_mul, Nat.one_mul, Nat.mul_comm]
  split_ifs
  · exact ⟨Dvd.intro_left q rfl, by omega, by omega⟩
  · exact ⟨Dvd.intro_left (q + 1) rfl, by omega, by omega⟩
  · exact ⟨Dvd.intro_left q rfl, by omega, by omega⟩
  · exact ⟨Dvd.intro_left (q + 1) rfl, by omega, by omega⟩

/-- The index `Math.floor(Math.random() * len)` is below `len`, rounding of the
product included. -/
theorem floorScaled_lt (r : Draw) (len : Nat) (hr : isUnitDouble r = true)
    (hlen : 0 < len) : floorScaled r len < len := by
  simp only [isUnitDouble, Bool.and_eq_true, decide_eq_true_eq] at hr
  obtain ⟨⟨hm, -⟩, hk⟩ := hr
  unfold floorScaled
  exact Nat.div_lt_of_lt_mul (roundMantissa_lt r.mant len r.exp hm hk hlen)

/-- Two products that the rounding takes up to the next integer: the exact
products are `4 - 2 ^ -52`, a tie between `4 - 2 ^ -51` and `4`, and the index is
4 where exact arithmetic would give 3. -/
theorem floorScaled_tie_rounds_up :
    floorScaled ⟨2573485501354569, 52⟩ 7 = 4 ∧
    floorScaled ⟨2001599834386887, 52⟩ 9 = 4 ∧
    2573485501354569 * 7 / 2 ^ 52 = 3 ∧ 2001599834386887 * 9 / 2 ^ 52 = 3 := by
  decide

theorem jsIndex_of_bounds {α : Type} (xs : List α) (i : Int) (h0 : 0 ≤ i)
    (h1 : i < xs.length) : ∃ x, jsIndex xs i = some x ∧ x ∈ xs := by
  have hlt : i.toNat < xs.length := by omega
  refine ⟨xs[i.toNat], ?_, List.getElem_mem hlt⟩
  unfold jsIndex
  rw [if_neg (by omega)]
  exact List.getElem?_eq_getElem hlt

theorem jsIndex_floorScaled {α : Type} (xs : List α) (r : Draw)
    (hr : isUnitDouble r = true) (hlen : 0 < xs.length) :
    ∃ x, jsIndex xs (floorScaled r xs.length) = some x ∧ x ∈ xs :=
  jsIndex_of_bounds xs _ (Int.natCast_nonneg _)
    (by exact_mod_cast floorScaled_lt r xs.length hr hlen)

theorem lookup_of_mem_keys (c : String) (hc : c ∈ categoryKeys) :
    ∃ pairs, CATEGORIES.lookup c = some pairs ∧ 0 < pairs.length := by
  simp only [categoryKeys, CATEGORIES, List.map, List.mem_cons, List.mem_singleton,
    List.not_mem_nil, or_false] at hc
  rcases hc with h | h | h | h <;> subst h
  · exact ⟨_, rfl, by decide⟩
  · exact ⟨_, rfl, by decide⟩
  · exact ⟨_, rfl, by decide⟩
  · exact ⟨_, rfl, by decide⟩

theorem random_not_key : "Random" ∉ categoryKeys := by decide

/-- Step 2 of `startGame` obtains a pair whenever the selection is `'Random'` or
a key of the word bank and the draws are values of `Math.random()`. -/
theorem selectWordPair_spec (category : String) (rCat rPair : Draw)
    (hc : category = "Random" ∨ category ∈ categoryKeys)
    (hCat : category = "Random" → isUnitDouble rCat = true)
    (hPair : isUnitDouble rPair = true) :
    ∃ c pairs pair, selectWordPair category rCat rPair = some (c, pair) ∧
      selectCategory category rCat = some c ∧
      selectPairs category rCat = some pairs ∧
      c ∈ categoryKeys ∧ CATEGORIES.lookup c = some pairs ∧
      jsIndex pairs (floorScaled rPair pairs.length) = some pair ∧ pair ∈ pairs ∧
      (category ≠ "Random" → c = category) := by
  have hsel : ∃ c, selectCategory category rCat = some c ∧ c ∈ categoryKeys ∧
      (category ≠ "Random" → c = category) := by
    by_cases hR : category = "Random"
    · obtain ⟨c, hget, hmem⟩ := jsIndex_floorScaled categoryKeys rCat (hCat hR) (by decide)
      refine ⟨c, ?_, hmem, fun h => absurd hR h⟩
      simp [selectCategory, hR, hget]
    · have hmem : category ∈ categoryKeys := hc.resolve_left hR
      refine ⟨category, ?_, hmem, fun _ => rfl⟩
      simp [selectCategory, hR]
  obtain ⟨c, hc1, hcmem, hc2⟩ := hsel
  obtain ⟨pairs, hlook, hpos⟩ := lookup_of_mem_keys c hcmem
  obtain ⟨pair, hget, hmem⟩ := jsIndex_floorScaled pairs rPair hPair hpos
  refine ⟨c, pairs, pair, ?_, hc1, ?_, hcmem, hlook, hget, hmem, hc2⟩
  · simp only [selectWordPair, hc1, hlook, hget, Option.some_bind, Option.bind_some]
  · simp only [selectPairs, hc1, hlook, Option.some_bind, Option.bind_some]

/-- With enough names and a pair selected, `startGame` reaches its `setX` calls
and returns. -/
theorem startGame_of_pair (s : State) (rCat rPair rImp : Draw) (pairs : List WordPair)
    (pair : WordPair) (hlen : MIN_PLAYERS ≤ (validPlayers s.players).length)
    (hsel : selectPairs s.category rCat = some pairs)
    (hget : jsIndex pairs (floorScaled rPair pairs.length) = some pair) :
    startGame s rCat rPair rImp = Outcome.returned { s with
      players := validPlayers s.players
      secretWord := pair.secret
      decoyWord := pair.decoy
      impostorIndex := some (floorScaled rImp (validPlayers s.players).length : Int)
      currentRevealIndex := 0
      gameState := GameState.assign } := by
  simp [startGame, hsel, hget, not_lt.mpr hlen]

/-! ## Role assignment -/

/-- C1: for a roster of `n` valid names, `3 ≤ n ≤ 7`, and draws that are values
of `Math.random()` (binary64 numbers in `[0, 1)`), `startGame` stores the
impostor index `Math.floor(rImp * n)`, the product rounded as binary64, and that
index lies in `[0, n)`; the role test of the assign screen classifies exactly one
player index below `n` as the impostor, namely that one, and every other index
as innocent. -/
theorem startGame_exactly_one_impostor (s : State) (rCat rPair rImp : Draw) (n : Nat)
    (hn : 3 ≤ n ∧ n ≤ 7) (hlen : (validPlayers s.players).length = n)
    (hc : s.category = "Random" ∨ s.category ∈ categoryKeys)
    (hCat : s.category = "Random" → isUnitDouble rCat = true)
    (hPair : isUnitDouble rPair = true) (hImp : isUnitDouble rImp = true) :
    ∃ s' i, startGame s rCat rPair rImp = Outcome.returned s' ∧
      s'.gameState = GameState.assign ∧ s'.players.length = n ∧
      s'.impostorIndex = some i ∧ i = (floorScaled rImp n : Int) ∧
      0 ≤ i ∧ i < n ∧
      (∃! p, p < n ∧ isImpostorAt s' p = true) ∧
      (∀ p, p < n → (isImpostorAt s' p = true ↔ (p : Int) = i)) ∧
      (∀ p, p < n → (isImpostorAt s' p = false ↔ (p : Int) ≠ i)) := by
  obtain ⟨c, pairs, pair, -, -, hsel, -, -, hget, -⟩ :=
    selectWordPair_spec s.category rCat rPair hc hCat hPair
  have h1 : floorScaled rImp n < n := floorScaled_lt rImp n hImp (by omega)
  have hmin : MIN_PLAYERS ≤ (validPlayers s.players).length := by
    rw [hlen]; exact hn.1
  refine ⟨_, (floorScaled rImp n : Int),
    startGame_of_pair s rCat rPair rImp pairs pair hmin hsel hget, rfl, hlen, ?_, rfl,
    Int.natCast_nonneg _, by exact_mod_cast h1, ?_, ?_, ?_⟩
  · simp [hlen]
  · refine ⟨floorScaled rImp n, ⟨h1, ?_⟩, ?_⟩
    · simp [isImpostorAt, isImpostor, hlen]
    · rintro p ⟨-, hp⟩
      simp [isImpostorAt, isImpostor, hlen] at hp
      exact hp
  · intro p _
    simp [isImpostorAt, isImpostor, hlen]
  · intro p _
    simp [isImpostorAt, isImpostor, hlen]

/-- Witness for C1: Ana, Ben and Cy on the category Animals, the impostor draw
one half. -/
theorem startGame_exactly_one_impostor_witness :
    ((3 ≤ 3 ∧ 3 ≤ 7) ∧ (validPlayers sampleSetup.players).length = 3 ∧
      isUnitDouble ⟨0, 0⟩ = true ∧ isUnitDouble ⟨1, 1⟩ = true) ∧
    ∃ s' i, startGame sampleSetup ⟨0, 0⟩ ⟨0, 0⟩ ⟨1, 1⟩ = Outcome.returned s' ∧
      s'.gameState = GameState.assign ∧ s'.players.length = 3 ∧
      s'.impostorIndex = some i ∧ i = (floorScaled ⟨1, 1⟩ 3 : Int) ∧
      0 ≤ i ∧ i < (3 : Nat) ∧
      (∃! p, p < 3 ∧ isImpostorAt s' p = true) ∧
      (∀ p, p < 3 → (isImpostorAt s' p = true ↔ (p : Int) = i)) ∧
      (∀ p, p < 3 → (isImpostorAt s' p = false ↔ (p : Int) ≠ i)) :=
  ⟨⟨by decide, by decide, by decide, by decide⟩,
    startGame_exactly_one_impostor sampleSetup ⟨0, 0⟩ ⟨0, 0⟩ ⟨1, 1⟩ 3 (by decide)
      (by decide) (Or.inr (by decide)) (fun h => absurd h (by decide)) (by decide)
      (by decide)⟩

/-! ## Word pair selection -/

/-- C5: when the selection is a key of the word bank, the pair `startGame`
selects is an element of that category's list, for every value of
`Math.random()` (the index `Math.floor(rPair * length)`, the product rounded as
binary64, is in bounds, so a pair is obtained); when the selection is
`'Random'`, the category resolved is a key of the word bank and the pair is an
element of that category's list.  The words `startGame` stores are those of the
pair. -/
theorem startGame_pair_from_category (s : State) (rCat rPair rImp : Draw)
    (hlen : MIN_PLAYERS ≤ (validPlayers s.players).length)
    (hc : s.category = "Random" ∨ s.category ∈ categoryKeys)
    (hCat : s.category = "Random" → isUnitDouble rCat = true)
    (hPair : isUnitDouble rPair = true) :
    ∃ c pairs pair s', selectWordPair s.category rCat rPair = some (c, pair) ∧
      c ∈ categoryKeys ∧ (s.category ≠ "Random" → c = s.category) ∧
      CATEGORIES.lookup c = some pairs ∧
      floorScaled rPair pairs.length < pairs.length ∧
      pairs[floorScaled rPair pairs.length]? = some pair ∧ pair ∈ pairs ∧
      startGame s rCat rPair rImp = Outcome.returned s' ∧
      s'.secretWord = pair.secret ∧ s'.decoyWord = pair.decoy := by
  obtain ⟨c, pairs, pair, hword, -, hsel, hcmem, hlook, hget, hmem, hsame⟩ :=
    selectWordPair_spec s.category rCat rPair hc hCat hPair
  obtain ⟨pairs', hlook', hpos⟩ := lookup_of_mem_keys c hcmem
  have hpp : pairs' = pairs := by
    rw [hlook] at hlook'
    exact (Option.some.inj hlook').symm
  subst hpp
  have hidx : pairs'[floorScaled rPair pairs'.length]? = some pair := by
    simpa [jsIndex] using hget
  exact ⟨c, pairs', pair, _, hword, hcmem, hsame, hlook,
    floorScaled_lt rPair _ hPair hpos, hidx, hmem,
    startGame_of_pair s rCat rPair rImp pairs' pair hlen hsel hget, rfl, rfl⟩

/-- Witness for C5: the selection `'Random'` with the draws three quarters and
seven eighths. -/
theorem startGame_pair_from_category_witness :
    (MIN_PLAYERS ≤ (validPlayers ["Ana", "Ben", "Cy"]).length ∧
      isUnitDouble ⟨3, 2⟩ = true ∧ isUnitDouble ⟨7, 3⟩ = true) ∧
    ∃ c pairs pair s',
      selectWordPair "Random" ⟨3, 2⟩ ⟨7, 3⟩ = some (c, pair) ∧
      c ∈ categoryKeys ∧ (("Random" : String) ≠ "Random" → c = "Random") ∧
      CATEGORIES.lookup c = some pairs ∧
      floorScaled ⟨7, 3⟩ pairs.length < pairs.length ∧
      pairs[floorScaled ⟨7, 3⟩ pairs.length]? = some pair ∧ pair ∈ pairs ∧
      startGame { initialState with players := ["Ana", "Ben", "Cy"] } ⟨3, 2⟩ ⟨7, 3⟩ ⟨0, 0⟩ =
        Outcome.returned s' ∧
      s'.secretWord = pair.secret ∧ s'.decoyWord = pair.decoy :=
  ⟨⟨by decide, by decide, by decide⟩,
    startGame_pair_from_category { initialState with players := ["Ana", "Ben", "Cy"] }
      ⟨3, 2⟩ ⟨7, 3⟩ ⟨0, 0⟩ (by decide) (Or.inl rfl) (fun _ => by decide) (by decide)⟩

/-! ## Roster size and stored names -/

theorem dropWhile_head_not {α : Type} (w : α → Bool) (l : List α) (a : α) (r : List α)
    (h : l.dropWhile w = a :: r) : w a = false := by
  induction l with
  | nil => simp at h
  | cons x xs ih =>
    by_cases hx : w x = true
    · rw [List.dropWhile_cons_of_pos hx] at h
      exact ih h
    · rw [List.dropWhile_cons_of_neg hx] at h
      obtain ⟨rfl, -⟩ := List.cons.inj h
      simpa using hx

/-- Stripping the tail of a list whose head is kept leaves a list whose head is
kept. -/
theorem dropWhile_rdropWhile_dropWhile {α : Type} (w : α → Bool) (l : List α) :
    List.dropWhile w (List.rdropWhile w (List.dropWhile w l)) =
      List.rdropWhile w (List.dropWhile w l) := by
  obtain ⟨t, ht⟩ := List.rdropWhile_prefix w (List.dropWhile w l)
  cases hm : List.rdropWhile w (List.dropWhile w l) with
  | nil => rfl
  | cons a r =>
    rw [hm] at ht
    have ha : w a = false := dropWhile_head_not w l a (r ++ t) (by rw [← ht]; rfl)
    rw [List.dropWhile_cons_of_neg (by simp [ha])]

theorem rdropWhile_append_rtakeWhile {α : Type} (w : α → Bool) (l : List α) :
    List.rdropWhile w l ++ List.rtakeWhile w l = l := by
  have h := congrArg List.reverse (List.takeWhile_append_dropWhile w l.reverse)
  rw [List.reverse_append, List.reverse_reverse] at h
  exact h

/-- What is left after stripping both ends: its first and its last element are
kept ones, and the list it came from is it between two runs of stripped
elements. -/
theorem strip_both_ends {α : Type} (w : α → Bool) (l : List α) :
    (∀ c, (List.rdropWhile w (List.dropWhile w l)).head? = some c → w c = false) ∧
    (∀ c, (List.rdropWhile w (List.dropWhile w l)).getLast? = some c → w c = false) ∧
    ∃ pre post, l = pre ++ List.rdropWhile w (List.dropWhile w l) ++ post ∧
      (∀ c, c ∈ pre → w c = true) ∧ (∀ c, c ∈ post → w c = true) := by
  refine ⟨?_, ?_, List.takeWhile w l, List.rtakeWhile w (List.dropWhile w l), ?_, ?_, ?_⟩
  · intro c hc
    have hfix := dropWhile_rdropWhile_dropWhile w l
    cases hm : List.rdropWhile w (List.dropWhile w l) with
    | nil => rw [hm] at hc; simp at hc
    | cons a r =>
      rw [hm] at hc hfix
      simp only [List.head?_cons, Option.some.injEq] at hc
      subst hc
      exact dropWhile_head_not w (a :: r) a r hfix
  · intro c hc
    by_cases hne : List.rdropWhile w (List.dropWhile w l) = []
    · rw [hne] at hc; simp at hc
    · rw [List.getLast?_eq_getLast _ hne, Option.some.injEq] at hc
      have hnot := List.rdropWhile_last_not w (List.dropWhile w l) hne
      rw [hc] at hnot
      simpa using hnot
  · rw [List.append_assoc, rdropWhile_append_rtakeWhile, List.takeWhile_append_dropWhile]
  · intro c hc
    exact List.mem_takeWhile_imp hc
  · intro c hc
    exact List.mem_rtakeWhile_imp hc

theorem trim_data (p : String) :
    (trim p).data = List.rdropWhile isJsWhiteSpace (List.dropWhile isJsWhiteSpace p.data) :=
  rfl

/-- A trimmed string has nothing left to trim. -/
theorem trim_trim (p : String) : trim (trim p) = trim p := by
  have hdata : (trim (trim p)).data = (trim p).data := by
    rw [trim_data (trim p), trim_data p, dropWhile_rdropWhile_dropWhile,
      List.rdropWhile_idempotent]
  exact String.ext hdata

/-- The result of `trim` neither begins nor ends with white space, and the
argument is the result between two runs of white space. -/
theorem trim_spec (q : String) :
    outerWhiteSpace (trim q) = false ∧
    ∃ pre post, q.data = pre ++ (trim q).data ++ post ∧
      (∀ c, c ∈ pre → isJsWhiteSpace c = true) ∧
      (∀ c, c ∈ post → isJsWhiteSpace c = true) := by
  obtain ⟨hhead, hlast, hsplit⟩ := strip_both_ends isJsWhiteSpace q.data
  refine ⟨?_, hsplit⟩
  unfold outerWhiteSpace
  rw [trim_data]
  cases h1 : (List.rdropWhile isJsWhiteSpace (List.dropWhile isJsWhiteSpace q.data)).head? with
  | none =>
    cases h2 : (List.rdropWhile isJsWhiteSpace
        (List.dropWhile isJsWhiteSpace q.data)).getLast? with
    | none => rfl
    | some d => simp [hlast d h2]
  | some c =>
    cases h2 : (List.rdropWhile isJsWhiteSpace
        (List.dropWhile isJsWhiteSpace q.data)).getLast? with
    | none => simp [hhead c h1]
    | some d => simp [hhead c h1, hlast d h2]

/-- What step 1 of `startGame` keeps: every kept name is non-empty, has no white
space at either end, and is one of the given names without the white space
around it. -/
theorem validPlayers_names (players : List String) (p : String)
    (hp : p ∈ validPlayers players) :
    p ≠ "" ∧ trim p = p ∧ outerWhiteSpace p = false ∧
    ∃ q pre post, q ∈ players ∧ q.data = pre ++ p.data ++ post ∧
      (∀ c, c ∈ pre → isJsWhiteSpace c = true) ∧
      (∀ c, c ∈ post → isJsWhiteSpace c = true) := by
  simp only [validPlayers, List.mem_filter, List.mem_map] at hp
  obtain ⟨⟨q, hq, rfl⟩, hne⟩ := hp
  obtain ⟨hout, pre, post, hsplit, hpre, hpost⟩ := trim_spec q
  exact ⟨by simpa using hne, trim_trim q, hout, q, pre, post, hq, hsplit, hpre, hpost⟩

theorem validPlayers_length_le (players : List String) :
    (validPlayers players).length ≤ players.length := by
  unfold validPlayers
  exact (List.length_filter_le _ _).trans (le_of_eq (List.length_map _ _))

/-- How `startGame` can end: the early `return` with the state it was given; a
throw before any `setX` call; a throw after `setPlayers`; or the return with
the valid names as roster, in `assign`. -/
theorem startGame_cases (s : State) (rCat rPair rImp : Draw) :
    ((validPlayers s.players).length < MIN_PLAYERS ∧
      startGame s rCat rPair rImp = Outcome.returned s) ∨
    (MIN_PLAYERS ≤ (validPlayers s.players).length ∧
      startGame s rCat rPair rImp = Outcome.threw s) ∨
    (MIN_PLAYERS ≤ (validPlayers s.players).length ∧
      startGame s rCat rPair rImp =
        Outcome.threw { s with players := validPlayers s.players }) ∨
    (MIN_PLAYERS ≤ (validPlayers s.players).length ∧
      ∃ s', startGame s rCat rPair rImp = Outcome.returned s' ∧
        s'.players = validPlayers s.players ∧ s'.category = s.category ∧
        s'.gameState = GameState.assign) := by
  by_cases hlt : (validPlayers s.players).length < MIN_PLAYERS
  · left
    exact ⟨hlt, by simp [startGame, hlt]⟩
  · right
    have hmin : MIN_PLAYERS ≤ (validPlayers s.players).length := not_lt.mp hlt
    cases hsel : selectPairs s.category rCat with
    | none =>
      left
      exact ⟨hmin, by simp [startGame, hlt, hsel]⟩
    | some pairs =>
      right
      cases hget : jsIndex pairs (floorScaled rPair pairs.length) with
      | none =>
        left
        exact ⟨hmin, by simp [startGame, hlt, hsel, hget]⟩
      | some pair =>
        right
        exact ⟨hmin, _, startGame_of_pair s rCat rPair rImp pairs pair hmin hsel hget,
          rfl, rfl, rfl⟩

/-- The roster bounds are kept by every handler, whatever the phase; only a
name change must address an existing slot. -/
theorem step_keeps_length_bounds (s : State) (a : Action)
    (hlen : MIN_PLAYERS ≤ s.players.length ∧ s.players.length ≤ MAX_PLAYERS) :
    MIN_PLAYERS ≤ (step s a).players.length ∧ (step s a).players.length ≤ MAX_PLAYERS := by
  simp only [MIN_PLAYERS, MAX_PLAYERS] at hlen ⊢
  cases a with
  | addPlayer =>
    simp only [step, perform, Outcome.state, handleAddPlayer, MAX_PLAYERS]
    split_ifs with h
    · simp only [List.length_append, List.length_singleton]
      omega
    · exact hlen
  | removePlayer idx =>
    simp only [step, perform, Outcome.state, handleRemovePlayer, MIN_PLAYERS]
    split_ifs with h
    · simp only [List.length_eraseIdx]
      split_ifs <;> omega
    · exact hlen
  | nameChange idx val =>
    simp only [step, perform, Outcome.state, handleNameChange, List.length_set]
    exact hlen
  | startGame rCat rPair rImp =>
    simp only [step, perform]
    have hle := validPlayers_length_le s.players
    rcases startGame_cases s rCat rPair rImp with
      ⟨-, h⟩ | ⟨-, h⟩ | ⟨hmin, h⟩ | ⟨hmin, s', h, hpl, -, -⟩
    · rw [h]; exact hlen
    · rw [h]; exact hlen
    · rw [h]
      simp only [Outcome.state, MIN_PLAYERS] at hmin ⊢
      omega
    · rw [h]
      simp only [Outcome.state, MIN_PLAYERS, hpl] at hmin ⊢
      omega
  | setCategory cat => exact hlen
  | revealDown => exact hlen
  | revealUp => exact hlen
  | nextReveal =>
    simp only [step, perform, Outcome.state, nextReveal]
    split_ifs <;> exact hlen
  | emergencyVote => exact hlen
  | startTimer =>
    simp only [step, perform, Outcome.state, startTimer, timerEffect]
    split_ifs <;> exact hlen
  | nextTurn =>
    simp only [step, perform, Outcome.state, nextTurn]
    split_ifs <;> exact hlen
  | vote idx => exact hlen
  | playAgainSamePlayers => exact hlen
  | resetGame => exact hlen

/-- The category selection is left alone by the four roster operations. -/
theorem step_keeps_category (s : State) (a : Action) (hop : rosterOp a = true) :
    (step s a).category = s.category := by
  cases a with
  | addPlayer =>
    simp only [step, perform, Outcome.state, handleAddPlayer]
    split_ifs <;> rfl
  | removePlayer idx =>
    simp only [step, perform, Outcome.state, handleRemovePlayer]
    split_ifs <;> rfl
  | nameChange idx val => rfl
  | startGame rCat rPair rImp =>
    simp only [step, perform]
    rcases startGame_cases s rCat rPair rImp with
      ⟨-, h⟩ | ⟨-, h⟩ | ⟨-, h⟩ | ⟨-, s', h, -, hc, -⟩
    · rw [h]; rfl
    · rw [h]; rfl
    · rw [h]; rfl
    · rw [h]; exact hc
  | setCategory cat => simp [rosterOp] at hop
  | revealDown => simp [rosterOp] at hop
  | revealUp => simp [rosterOp] at hop
  | nextReveal => simp [rosterOp] at hop
  | emergencyVote => simp [rosterOp] at hop
  | startTimer => simp [rosterOp] at hop
  | nextTurn => simp [rosterOp] at hop
  | vote idx => simp [rosterOp] at hop
  | playAgainSamePlayers => simp [rosterOp] at hop
  | resetGame => simp [rosterOp] at hop

theorem runActions_keeps_roster_bounds (ops : List Action) (s : State)
    (hlen : MIN_PLAYERS ≤ s.players.length ∧ s.players.length ≤ MAX_PLAYERS)
    (hcat : s.category = "Random") (hrun : rosterRun s ops = true) :
    (MIN_PLAYERS ≤ (runActions s ops).players.length ∧
      (runActions s ops).players.length ≤ MAX_PLAYERS) ∧
    (runActions s ops).category = "Random" := by
  induction ops generalizing s with
  | nil => exact ⟨hlen, hcat⟩
  | cons a rest ih =>
    simp only [rosterRun, Bool.and_eq_true] at hrun
    obtain ⟨⟨hop, -⟩, hrest⟩ := hrun
    exact ih (step s a) (step_keeps_length_bounds s a hlen)
      ((step_keeps_category s a hop).trans hcat) hrest

theorem sampleSetupOps_result :
    (runActions initialState sampleSetupOps).players = [" Ana", "Ben ", "Cy"] := by
  decide

/-- C11: from the initial state (three empty slots, `setup`), after any finite
sequence of `handleAddPlayer`, `handleRemovePlayer`, `handleNameChange` on an
existing slot and `startGame`, the players list has between `MIN_PLAYERS = 3` and
`MAX_PLAYERS = 7` entries; and a `startGame` made there that gets past the name
count enters `assign` with every stored name non-empty and already trimmed: the
name neither begins nor ends with white space, and it is one of the names
supplied with only white space taken off its two ends (with draws of
`Math.random()` the call does return such a state). -/
theorem roster_size_invariant (ops : List Action)
    (hrun : rosterRun initialState ops = true) :
    (MIN_PLAYERS ≤ (runActions initialState ops).players.length ∧
      (runActions initialState ops).players.length ≤ MAX_PLAYERS) ∧
    (∀ rCat rPair rImp s',
      startGame (runActions initialState ops) rCat rPair rImp = Outcome.returned s' →
      MIN_PLAYERS ≤ (validPlayers (runActions initialState ops).players).length →
      s'.gameState = GameState.assign ∧
      (MIN_PLAYERS ≤ s'.players.length ∧ s'.players.length ≤ MAX_PLAYERS) ∧
      ∀ p, p ∈ s'.players →
        p ≠ "" ∧ trim p = p ∧ outerWhiteSpace p = false ∧
        ∃ q pre post, q ∈ (runActions initialState ops).players ∧
          q.data = pre ++ p.data ++ post ∧
          (∀ c, c ∈ pre → isJsWhiteSpace c = true) ∧
          (∀ c, c ∈ post → isJsWhiteSpace c = true)) ∧
    (∀ rCat rPair rImp, isUnitDouble rCat = true → isUnitDouble rPair = true →
      MIN_PLAYERS ≤ (validPlayers (runActions initialState ops).players).length →
      ∃ s', startGame (runActions initialState ops) rCat rPair rImp = Outcome.returned s' ∧
        s'.gameState = GameState.assign) := by
  obtain ⟨hlen, hcat⟩ :=
    runActions_keeps_roster_bounds ops initialState ⟨by decide, by decide⟩ rfl hrun
  refine ⟨hlen, ?_, ?_⟩
  · intro rCat rPair rImp s' hres hmin
    rcases startGame_cases (runActions initialState ops) rCat rPair rImp with
      ⟨hlt, -⟩ | ⟨-, h⟩ | ⟨-, h⟩ | ⟨-, t, h, hpl, -, hg⟩
    · exact absurd hmin (not_le.mpr hlt)
    · rw [h] at hres; exact Outcome.noConfusion hres
    · rw [h] at hres; exact Outcome.noConfusion hres
    · rw [h] at hres
      obtain rfl : t = s' := Outcome.returned.inj hres
      refine ⟨hg, ⟨?_, ?_⟩, ?_⟩
      · rw [hpl]; exact hmin
      · rw [hpl]
        exact (validPlayers_length_le _).trans hlen.2
      · intro p hp
        rw [hpl] at hp
        exact validPlayers_names _ p hp
  · intro rCat rPair rImp hCat hPair hmin
    obtain ⟨c, pairs, pair, -, -, hsel, -, -, hget, -⟩ :=
      selectWordPair_spec (runActions initialState ops).category rCat rPair (Or.inl hcat)
        (fun _ => hCat) hPair
    exact ⟨_, startGame_of_pair _ rCat rPair rImp pairs pair hmin hsel hget, rfl⟩

/-- Witness for C11: a fourth slot added, the names typed, the fourth slot
removed. -/
theorem roster_size_invariant_witness :
    rosterRun initialState sampleSetupOps = true ∧
    (MIN_PLAYERS ≤ (runActions initialState sampleSetupOps).players.length ∧
      (runActions initialState sampleSetupOps).players.length ≤ MAX_PLAYERS) ∧
    (∀ rCat rPair rImp s',
      startGame (runActions initialState sampleSetupOps) rCat rPair rImp =
        Outcome.returned s' →
      MIN_PLAYERS ≤ (validPlayers (runActions initialState sampleSetupOps).players).length →
      s'.gameState = GameState.assign ∧
      (MIN_PLAYERS ≤ s'.players.length ∧ s'.players.length ≤ MAX_PLAYERS) ∧
      ∀ p, p ∈ s'.players →
        p ≠ "" ∧ trim p = p ∧ outerWhiteSpace p = false ∧
        ∃ q pre post, q ∈ (runActions initialState sampleSetupOps).players ∧
          q.data = pre ++ p.data ++ post ∧
          (∀ c, c ∈ pre → isJsWhiteSpace c = true) ∧
          (∀ c, c ∈ post → isJsWhiteSpace c = true)) ∧
    (∀ rCat rPair rImp, isUnitDouble rCat = true → isUnitDouble rPair = true →
      MIN_PLAYERS ≤ (validPlayers (runActions initialState sampleSetupOps).players).length →
      ∃ s', startGame (runActions initialState sampleSetupOps) rCat rPair rImp =
          Outcome.returned s' ∧
        s'.gameState = GameState.assign) :=
  ⟨by decide, roster_size_invariant sampleSetupOps (by decide)⟩

/-! ## Events at the screen -/

theorem afterEvent_of_offered (s : State) (a : Action) (h : offered s a = true) :
    afterEvent s a = step s a := by
  simp [afterEvent, dispatch, h, step]

theorem afterEvent_of_not_offered (s : State) (a : Action) (h : offered s a = false) :
    afterEvent s a = s := by
  simp [afterEvent, dispatch, h]

/-- The render function shows the control of a phase-changing operation in one
phase only. -/
theorem offered_in_phase (s : State) (a : Action) (ph : GameState)
    (hv : validPhase a = some ph) (h : offered s a = true) : s.gameState = ph := by
  cases a <;> simp only [validPhase, Option.some.injEq] at hv <;>
    first
      | exact Option.noConfusion hv
      | (subst hv
         simp only [offered, Bool.and_eq_true, beq_iff_eq] at h
         first
           | exact h
           | exact h.1)

/-- A handler either leaves the phase alone or sets it to the target of its
operation. -/
theorem step_phase (s : State) (a : Action) :
    (step s a).gameState = s.gameState ∨ some (step s a).gameState = targetPhase a := by
  cases a with
  | addPlayer =>
    left
    simp only [step, perform, Outcome.state, handleAddPlayer]
    split_ifs <;> rfl
  | removePlayer idx =>
    left
    simp only [step, perform, Outcome.state, handleRemovePlayer]
    split_ifs <;> rfl
  | nameChange idx val => exact Or.inl rfl
  | setCategory cat => exact Or.inl rfl
  | startGame rCat rPair rImp =>
    simp only [step, perform]
    rcases startGame_cases s rCat rPair rImp with
      ⟨-, h⟩ | ⟨-, h⟩ | ⟨-, h⟩ | ⟨-, s', h, -, -, hg⟩
    · rw [h]; exact Or.inl rfl
    · rw [h]; exact Or.inl rfl
    · rw [h]; exact Or.inl rfl
    · rw [h]; right; simp [Outcome.state, targetPhase, hg]
  | revealDown => exact Or.inl rfl
  | revealUp => exact Or.inl rfl
  | nextReveal =>
    simp only [step, perform, Outcome.state, nextReveal]
    split_ifs
    · exact Or.inl rfl
    · exact Or.inr rfl
  | emergencyVote => exact Or.inr rfl
  | startTimer =>
    left
    simp only [step, perform, Outcome.state, startTimer, timerEffect]
    split_ifs <;> rfl
  | nextTurn =>
    simp only [step, perform, Outcome.state, nextTurn]
    split_ifs
    · exact Or.inl rfl
    · exact Or.inr rfl
    · exact Or.inl rfl
  | vote idx => exact Or.inr rfl
  | playAgainSamePlayers => exact Or.inr rfl
  | resetGame => exact Or.inr rfl

/-- The handlers of the events that are no phase-changing operation leave the
phase alone. -/
theorem step_phase_of_no_operation (s : State) (a : Action) (hv : validPhase a = none) :
    (step s a).gameState = s.gameState := by
  rcases step_phase s a with h | h
  · exact h
  · cases a <;> first
      | exact Option.noConfusion hv
      | simp [targetPhase] at h

theorem timerEffect_phase (s : State) : (timerEffect s).gameState = s.gameState := by
  unfold timerEffect
  split_ifs <;> rfl

theorem tick_phase (s : State) : (tick s).gameState = s.gameState := by
  unfold tick
  split_ifs
  · exact timerEffect_phase _
  · rfl

/-- The roster bounds hold in every state a sequence of events at the screen
leads to. -/
theorem uiRun_keeps_length_bounds (acts : List Action) (s t : State)
    (hlen : MIN_PLAYERS ≤ s.players.length ∧ s.players.length ≤ MAX_PLAYERS)
    (hrun : uiRun s acts = some t) :
    MIN_PLAYERS ≤ t.players.length ∧ t.players.length ≤ MAX_PLAYERS := by
  induction acts generalizing s with
  | nil =>
    simp only [uiRun, Option.some.injEq] at hrun
    subst hrun
    exact hlen
  | cons a rest ih =>
    simp only [uiRun] at hrun
    split_ifs at hrun with hoff
    exact ih (step s a) (step_keeps_length_bounds s a hlen) hrun

/-- With the `Start Game` button enabled every slot holds a valid name. -/
theorem validPlayers_of_offered (s : State) (rCat rPair rImp : Draw)
    (h : offered s (Action.startGame rCat rPair rImp) = true) :
    (validPlayers s.players).length = s.players.length := by
  simp only [offered, Bool.and_eq_true, Bool.not_eq_true', List.any_eq_false,
    beq_iff_eq] at h
  unfold validPlayers
  rw [List.filter_eq_self.mpr, List.length_map]
  intro p hp
  obtain ⟨q, hq, rfl⟩ := List.mem_map.mp hp
  simpa using h.2 q hq

/-! ## Starting with too few or too many names -/

/-- C6: in every state that events at the screen lead to from the initial
state, the players list has between 3 and 7 entries, so `startGame` never finds
more than 7 names; with fewer than 3 names that are non-empty after trimming the
`Start Game` button is disabled and `startGame` itself returns at once: no
session is created, the phase and every other cell (players, secret word, hint,
impostor index, reveal cursor) stay as they were; and a `startGame` that changes
anything has left `assign` with between 3 and 7 players, the valid names. -/
theorem startGame_roster_limits (acts : List Action) (s : State) (rCat rPair rImp : Draw)
    (hrun : uiRun initialState acts = some s) :
    (MIN_PLAYERS ≤ s.players.length ∧ s.players.length ≤ MAX_PLAYERS) ∧
    ((validPlayers s.players).length < MIN_PLAYERS →
      offered s (Action.startGame rCat rPair rImp) = false ∧
      startGame s rCat rPair rImp = Outcome.returned s ∧
      afterEvent s (Action.startGame rCat rPair rImp) = s) ∧
    (∀ s', startGame s rCat rPair rImp = Outcome.returned s' → s' ≠ s →
      s'.gameState = GameState.assign ∧ s'.players = validPlayers s.players ∧
      MIN_PLAYERS ≤ s'.players.length ∧ s'.players.length ≤ MAX_PLAYERS) := by
  have hlen := uiRun_keeps_length_bounds acts initialState s ⟨by decide, by decide⟩ hrun
  refine ⟨hlen, ?_, ?_⟩
  · intro hlt
    have hoff : offered s (Action.startGame rCat rPair rImp) = false := by
      by_contra hne
      have hon : offered s (Action.startGame rCat rPair rImp) = true := by
        simpa using hne
      have hall := validPlayers_of_offered s rCat rPair rImp hon
      rw [hall] at hlt
      exact absurd hlen.1 (not_le.mpr hlt)
    exact ⟨hoff, by simp [startGame, hlt], afterEvent_of_not_offered s _ hoff⟩
  · intro s' hres hne
    rcases startGame_cases s rCat rPair rImp with
      ⟨-, h⟩ | ⟨-, h⟩ | ⟨-, h⟩ | ⟨hmin, t, h, hpl, -, hg⟩
    · rw [h] at hres
      exact absurd (Outcome.returned.inj hres).symm hne
    · rw [h] at hres; exact Outcome.noConfusion hres
    · rw [h] at hres; exact Outcome.noConfusion hres
    · rw [h] at hres
      obtain rfl : t = s' := Outcome.returned.inj hres
      refine ⟨hg, hpl, ?_, ?_⟩
      · rw [hpl]; exact hmin
      · rw [hpl]
        exact (validPlayers_length_le _).trans hlen.2

/-- Witness for C6: a fourth slot added and one name typed; one name is valid
and `Start Game` is disabled. -/
theorem startGame_roster_limits_witness :
    uiRun initialState [Action.addPlayer, Action.nameChange 0 " Ana"] =
      some sampleHalfFilled ∧
    (MIN_PLAYERS ≤ sampleHalfFilled.players.length ∧
      sampleHalfFilled.players.length ≤ MAX_PLAYERS) ∧
    ((validPlayers sampleHalfFilled.players).length < MIN_PLAYERS →
      offered sampleHalfFilled (Action.startGame ⟨0, 0⟩ ⟨0, 0⟩ ⟨1, 1⟩) = false ∧
      startGame sampleHalfFilled ⟨0, 0⟩ ⟨0, 0⟩ ⟨1, 1⟩ = Outcome.returned sampleHalfFilled ∧
      afterEvent sampleHalfFilled (Action.startGame ⟨0, 0⟩ ⟨0, 0⟩ ⟨1, 1⟩) =
        sampleHalfFilled) ∧
    (∀ s', startGame sampleHalfFilled ⟨0, 0⟩ ⟨0, 0⟩ ⟨1, 1⟩ = Outcome.returned s' →
      s' ≠ sampleHalfFilled →
      s'.gameState = GameState.assign ∧
      s'.players = validPlayers sampleHalfFilled.players ∧
      MIN_PLAYERS ≤ s'.players.length ∧ s'.players.length ≤ MAX_PLAYERS) :=
  ⟨by decide,
    startGame_roster_limits [Action.addPlayer, Action.nameChange 0 " Ana"]
      sampleHalfFilled ⟨0, 0⟩ ⟨0, 0⟩ ⟨1, 1⟩ (by decide)⟩

/-! ## Operations outside their phase -/

/-- C8: for every state and every phase-changing operation (`startGame`,
`nextReveal`, `nextTurn`, the emergency vote, `handleVote`,
`playAgainSamePlayers`, `resetGame`), the control that invokes the operation is
on screen only in the operation's valid phase; in any other phase the event is
refused, no handler runs and every cell of the state stays as it was.  The phase
changes only when such an operation is invoked in its valid phase, and then to
the target of that operation; no other event and no timer tick changes it. -/
theorem operation_outside_phase (s : State) (a : Action) (ph : GameState)
    (hv : validPhase a = some ph) :
    (offered s a = true → s.gameState = ph) ∧
    (s.gameState ≠ ph → dispatch s a = none ∧ afterEvent s a = s) ∧
    ((afterEvent s a).gameState ≠ s.gameState →
      s.gameState = ph ∧ some (afterEvent s a).gameState = targetPhase a) ∧
    (∀ b, validPhase b = none → (afterEvent s b).gameState = s.gameState) ∧
    (tick s).gameState = s.gameState := by
  have hin := offered_in_phase s a ph hv
  refine ⟨hin, ?_, ?_, ?_, tick_phase s⟩
  · intro hne
    have hoff : offered s a = false := by
      by_contra hcon
      exact hne (hin (by simpa using hcon))
    exact ⟨by simp [dispatch, hoff], afterEvent_of_not_offered s a hoff⟩
  · intro hchange
    by_cases hoff : offered s a = true
    · rw [afterEvent_of_offered s a hoff] at hchange ⊢
      rcases step_phase s a with h | h
      · exact absurd h hchange
      · exact ⟨hin hoff, h⟩
    · have hoff' : offered s a = false := by simpa using hoff
      rw [afterEvent_of_not_offered s a hoff'] at hchange
      exact absurd rfl hchange
  · intro b hb
    by_cases hoff : offered s b = true
    · rw [afterEvent_of_offered s b hoff]
      exact step_phase_of_no_operation s b hb
    · have hoff' : offered s b = false := by simpa using hoff
      rw [afterEvent_of_not_offered s b hoff']

/-- Witness for C8: a vote while the sample game is in `playing`. -/
theorem operation_outside_phase_witness :
    validPhase (Action.vote 0) = some GameState.voting ∧
    (offered samplePlaying (Action.vote 0) = true →
      samplePlaying.gameState = GameState.voting) ∧
    (samplePlaying.gameState ≠ GameState.voting →
      dispatch samplePlaying (Action.vote 0) = none ∧
      afterEvent samplePlaying (Action.vote 0) = samplePlaying) ∧
    ((afterEvent samplePlaying (Action.vote 0)).gameState ≠ samplePlaying.gameState →
      samplePlaying.gameState = GameState.voting ∧
      some (afterEvent samplePlaying (Action.vote 0)).gameState =
        targetPhase (Action.vote 0)) ∧
    (∀ b, validPhase b = none →
      (afterEvent samplePlaying b).gameState = samplePlaying.gameState) ∧
    (tick samplePlaying).gameState = samplePlaying.gameState :=
  ⟨rfl, operation_outside_phase samplePlaying (Action.vote 0) GameState.voting rfl⟩

/-! ## The sample states on the screen -/

/-- The sample setup is what the screen holds after the sample events. -/
theorem sampleSetup_reachable : uiRun initialState sampleSetupEvents = some sampleSetup := by
  decide

/-- From the sample setup, `Start Game` and three passes of the device lead to
the sample game; the draws are 0 for the pair and one half for the impostor. -/
theorem samplePlaying_reachable :
    uiRun sampleSetup
      [Action.startGame ⟨0, 0⟩ ⟨0, 0⟩ ⟨1, 1⟩, Action.nextReveal, Action.revealDown,
        Action.revealUp, Action.nextReveal, Action.nextReveal] = some samplePlaying := by
  decide

end ImpostorGame
